import Mathlib

/-!
# Verification of the excelrecreator metadata-to-workbook reconstruction engine

This file gives a shallow embedding, in Lean 4, of the Go package
`excelrecreator` (file `excelrecreator.go`): a component that rebuilds a
spreadsheet workbook from a language-agnostic metadata description.

The embedding mirrors the Go source function by function:
`DefaultOptions`, `New`, `Recreate`, `recreateDocumentProperties`,
`recreateStyles`, `recreateSheet`, `recreateCells`,
`recreateDataValidation`, `recreateSheetProtection`, `recreateDefinedNames`.

The external spreadsheet engine (the `excelize` collaborator) is out of
scope of the repository; its capability surface (create/delete sheet, set
cell values, register styles, ...) is modelled from the specification as a
pure workbook state `WFile` and total state-transforming operations.
Go `float64` quantities are modelled as exact rationals; `time.Time`
values are modelled as an opaque integer instant that is passed through
unchanged.  Go maps are modelled as association lists; the randomized
iteration order of the style map is made explicit by quantifying over
permutations of the association list.
-/

set_option maxRecDepth 10000

namespace ExcelRecreator

/-! ## Association-list helpers (model of Go `map` read/write) -/

/-- Lookup in an association list, first matching key wins
(a Go map has at most one entry per key, so this is the map read). -/
def alookup {α β : Type} [DecidableEq α] : List (α × β) → α → Option β
  | [], _ => none
  | (k', v') :: t, k => if k' = k then some v' else alookup t k

/-- Go map assignment `m[k] = v`: replace the entry for `k` if present,
otherwise append a new entry. -/
def mapInsert {α β : Type} [DecidableEq α] : List (α × β) → α → β → List (α × β)
  | [], k, v => [(k, v)]
  | (k', v') :: t, k, v => if k' = k then (k, v) :: t else (k', v') :: mapInsert t k v

/-- Update the value at key `k` in place if present; otherwise append
`(k, g dflt)`.  Models a collaborator cell store keyed by address. -/
def mapUpdate {α β : Type} [DecidableEq α] (dflt : β) : List (α × β) → α → (β → β) → List (α × β)
  | [], k, g => [(k, g dflt)]
  | (k', v') :: t, k, g => if k' = k then (k, g v') :: t else (k', v') :: mapUpdate dflt t k g

/-! ## Model of `strconv.ParseFloat`

`recreateCells` falls back to `strconv.ParseFloat(strVal, 64)` for values of
unrecognized dynamic type.  Modelled from the Go standard library: the
decimal floating-point grammar `[+-]? digits [. digits]? ([eE] [+-]? digits)?`
(with at least one mantissa digit), evaluated exactly as a rational.
Hexadecimal floats, infinities, NaNs and digit-group underscores are outside
this model, and the rounding of the exact decimal value to the nearest
binary64 is not modelled (the engine only forwards the parsed value). -/

/-- Powers of ten (kept as plain structural recursion so that concrete
parses evaluate inside the kernel). -/
def pow10 : Nat → Nat
  | 0 => 1
  | n + 1 => 10 * pow10 n

/-- Numeric value of a list of decimal digit characters. -/
def digitsToNat : List Char → Nat
  | [] => 0
  | c :: t => (c.toNat - 48) * pow10 t.length + digitsToNat t

/-- Parse an optional sign; returns (negative?, rest). -/
def parseSign : List Char → Bool × List Char
  | '+' :: t => (false, t)
  | '-' :: t => (true, t)
  | l => (false, l)

/-- Parse the exponent suffix after the mantissa: empty, or `e`/`E`,
optional sign, one or more digits.  Returns the decimal exponent. -/
def parseExpPart : List Char → Option Int
  | [] => some 0
  | c :: t =>
    if c = 'e' ∨ c = 'E' then
      let (neg, t') := parseSign t
      let ds := t'.takeWhile Char.isDigit
      let rest := t'.dropWhile Char.isDigit
      if ds ≠ [] ∧ rest = [] then
        some (if neg then -(digitsToNat ds : Int) else (digitsToNat ds : Int))
      else none
    else none

/-- Model of `strconv.ParseFloat s 64` restricted to the finite decimal
grammar; `none` means the Go call returns an error. -/
def parseGoFloat (s : String) : Option ℚ :=
  let (neg, l) := parseSign s.toList
  let ds1 := l.takeWhile Char.isDigit
  let l1 := l.dropWhile Char.isDigit
  let (ds2, l2) : List Char × List Char :=
    match l1 with
    | '.' :: t => (t.takeWhile Char.isDigit, t.dropWhile Char.isDigit)
    | _ => ([], l1)
  if ds1 = [] ∧ ds2 = [] then none
  else
    match parseExpPart l2 with
    | none => none
    | some e =>
      let num : Int := (digitsToNat (ds1 ++ ds2) : Int)
      let num : Int := if neg then -num else num
      let den : Nat := pow10 ds2.length
      some (if 0 ≤ e then mkRat (num * (pow10 e.toNat : Int)) den
        else mkRat num (den * pow10 (-e).toNat))

/-! ## Metadata data model

Mirrors the `excelmetadata` structures as used by `excelrecreator.go`
(`Metadata`, `SheetMetadata`, `CellMetadata`, style/validation/protection
records).  Go `map` fields (`Styles`, `ColWidths`, `RowHeights`) are
association lists. -/

/-- Font sub-record of a style; fields copied verbatim by `recreateStyles`. -/
structure Font where
  bold : Bool
  italic : Bool
  underline : String
  strike : Bool
  family : String
  size : ℚ
  color : String
  deriving DecidableEq

/-- Fill sub-record of a style. -/
structure Fill where
  type : String
  pattern : Int
  color : List String
  deriving DecidableEq

/-- One border spec of a style. -/
structure Border where
  type : String
  color : String
  style : Int
  deriving DecidableEq

/-- Alignment sub-record of a style. -/
structure Alignment where
  horizontal : String
  vertical : String
  wrapText : Bool
  textRotation : Int
  indent : Int
  shrinkToFit : Bool
  deriving DecidableEq

/-- Style protection flags. -/
structure StyleProtection where
  hidden : Bool
  locked : Bool
  deriving DecidableEq

/-- `excelmetadata` style details: every sub-record optional. -/
structure StyleMeta where
  font : Option Font
  fill : Option Fill
  border : List Border
  alignment : Option Alignment
  numberFormat : Int
  protection : Option StyleProtection
  deriving DecidableEq

/-- The dynamically-typed cell value (`interface{}` in Go), as the tagged
union of the cases distinguished by the type switch in `recreateCells`:
`float32`, `float64`, `int`, `int8`, `int16`, `int32`, `bool`, `time.Time`,
and the `default` arm.  A `vOther` value carries its `fmt.Sprintf("%v", v)`
textual form (for a string value that is the string itself). -/
inductive CellValue where
  | vFloat32 (v : ℚ)
  | vFloat64 (v : ℚ)
  | vInt (n : ℤ)
  | vInt8 (n : ℤ)
  | vInt16 (n : ℤ)
  | vInt32 (n : ℤ)
  | vBool (b : Bool)
  | vTime (t : ℤ)
  | vOther (text : String)
  deriving DecidableEq

/-- Hyperlink metadata; `recreateCells` reads only the `Link` field. -/
structure Hyperlink where
  link : String
  deriving DecidableEq

/-- One cell of a sheet. -/
structure CellMetadata where
  address : String
  value : Option CellValue
  formula : String
  styleID : Int
  hyperlink : Option Hyperlink
  deriving DecidableEq

/-- One rectangular merge range. -/
structure MergedCell where
  startCell : String
  endCell : String
  deriving DecidableEq

/-- One data-validation rule, metadata side. -/
structure DataValidationMeta where
  type : String
  operator : String
  formula1 : String
  formula2 : String
  showError : Bool
  errorTitle : String
  errorMessage : String
  range : String
  deriving DecidableEq

/-- Sheet protection metadata (`protectedFlag` models the Go field
`Protected`, renamed because `protected` is a Lean keyword). -/
structure SheetProtectionMeta where
  protectedFlag : Bool
  password : String
  editObjects : Bool
  editScenarios : Bool
  selectLockedCells : Bool
  selectUnlockedCells : Bool
  deriving DecidableEq

/-- One sheet of the metadata document. -/
structure SheetMetadata where
  index : Int
  name : String
  visible : Bool
  colWidths : List (String × ℚ)
  rowHeights : List (Int × ℚ)
  cells : List CellMetadata
  mergedCells : List MergedCell
  dataValidations : List DataValidationMeta
  protection : Option SheetProtectionMeta
  deriving DecidableEq

/-- Document properties; copied verbatim into the collaborator. -/
structure Properties where
  title : String
  subject : String
  creator : String
  keywords : String
  description : String
  lastModifiedBy : String
  category : String
  version : String
  created : String
  modified : String
  deriving DecidableEq

/-- One defined-name entry. -/
structure DefinedNameMeta where
  name : String
  refersTo : String
  scope : String
  deriving DecidableEq

/-- The root metadata document.  The `styles` association list holds the
contents of the Go map `Styles` (keys unique); its list order stands for
one observed iteration order of that map. -/
structure Metadata where
  properties : Properties
  sheets : List SheetMetadata
  styles : List (Int × StyleMeta)
  definedNames : List DefinedNameMeta
  deriving DecidableEq

/-- Reconstruction options (`Options` in the source). -/
structure Options where
  preserveFormulas : Bool
  preserveStyles : Bool
  preserveDataValidation : Bool
  skipEmptyCells : Bool
  defaultSheetName : String
  deriving DecidableEq

/-! ## Workbook collaborator model

Modelled from the spec: the output workbook collaborator (the `excelize`
engine, out of scope of the repository) with exactly the capability surface
the engine calls: create/delete sheet, set sheet visibility, set active
sheet by index, set column width and row height, register a style
descriptor and receive a generated identifier, write a cell's formula /
numeric / boolean / string / date value and style by address, write a
hyperlink, merge a range, add a data-validation rule, apply sheet
protection, register a defined name, set document properties. -/

/-- An engine-native style descriptor (`excelize.Style` as far as the
engine populates it).  `fill = none` models the zero `Fill` value. -/
structure EngineStyle where
  font : Option Font
  fill : Option Fill
  border : List Border
  alignment : Option Alignment
  numFmt : Int
  protection : Option StyleProtection
  deriving DecidableEq

/-- What the collaborator stores for a written cell value; the constructors
mirror the distinct write calls `SetCellFloat`, `SetCellInt`, `SetCellBool`,
`SetCellValue` with a `time.Time`, and `SetCellValue` with a string. -/
inductive CellContent where
  | floatCell (v : ℚ)
  | intCell (n : ℤ)
  | boolCell (b : Bool)
  | timeCell (t : ℤ)
  | strCell (s : String)
  deriving DecidableEq

/-- The collaborator's state for one cell address. -/
structure CellState where
  value : Option CellContent := none
  formula : Option String := none
  styleID : Option Nat := none
  hyperlink : Option (String × String) := none
  deriving DecidableEq

/-- A data-validation rule as stored by the collaborator
(`excelize.DataValidation` as far as the engine populates it). -/
structure EngineValidation where
  type : String
  operator : String
  formula1 : String
  formula2 : String
  showErrorMessage : Bool
  errorTitle : String
  error : String
  sqref : String
  deriving DecidableEq

/-- Sheet-protection options as passed to the collaborator
(`excelize.SheetProtectionOptions` as far as the engine populates it). -/
structure ProtectionOpts where
  password : String
  editObjects : Bool
  editScenarios : Bool
  selectLockedCells : Bool
  selectUnlockedCells : Bool
  deriving DecidableEq

/-- The collaborator's state for one worksheet. -/
structure WSheet where
  name : String
  visible : Bool := true
  colWidths : List (String × ℚ) := []
  rowHeights : List (Int × ℚ) := []
  cells : List (String × CellState) := []
  merges : List (String × String) := []
  validations : List EngineValidation := []
  protection : Option ProtectionOpts := none
  deriving DecidableEq

/-- A defined name as stored by the collaborator. -/
structure EngineDefinedName where
  name : String
  refersTo : String
  scope : String
  deriving DecidableEq

/-- The collaborator's whole workbook state.  `activeSheet = none` means no
active sheet was ever explicitly set (the collaborator then falls back to
its own default). -/
structure WFile where
  sheets : List WSheet
  styles : List EngineStyle
  activeSheet : Option Int
  docProps : Option Properties
  definedNames : List EngineDefinedName
  deriving DecidableEq

/-- Modelled from the spec: `excelize.NewFile()` pre-creates one default
placeholder sheet named `Sheet1`. -/
def newFile : WFile :=
  { sheets := [{ name := "Sheet1" }], styles := [], activeSheet := none,
    docProps := none, definedNames := [] }

/-- Modelled from the spec: delete the sheet with the given name. -/
def deleteSheet (f : WFile) (name : String) : WFile :=
  { f with sheets := f.sheets.filter (fun ws => ws.name ≠ name) }

/-- Whether a sheet with this name exists. -/
def sheetExists (f : WFile) (name : String) : Bool :=
  f.sheets.any (fun ws => ws.name = name)

/-- Modelled from the spec: create a sheet; creation fails on a duplicate
name (spec 4.3 step 1: duplicate/invalid name aborts the sheet). -/
def newSheet (f : WFile) (name : String) : Except String WFile :=
  if sheetExists f name then .error ("sheet " ++ name ++ " already exists")
  else .ok { f with sheets := f.sheets ++ [{ name := name }] }

/-- Apply a transformation to every sheet carrying the given name (names
are unique, so at most one sheet is touched). -/
def updateSheetByName (f : WFile) (name : String) (g : WSheet → WSheet) : WFile :=
  { f with sheets := f.sheets.map (fun ws => if ws.name = name then g ws else ws) }

/-- Modelled from the spec: set a sheet's visibility flag. -/
def setSheetVisible (f : WFile) (name : String) (visible : Bool) : WFile :=
  updateSheetByName f name (fun ws => { ws with visible := visible })

/-- Modelled from the spec: set the width of a column range; the engine
always passes `startCol = endCol`, so one column entry is written. -/
def setColWidth (f : WFile) (name : String) (startCol endCol : String) (width : ℚ) : WFile :=
  let _ := endCol
  updateSheetByName f name (fun ws => { ws with colWidths := mapInsert ws.colWidths startCol width })

/-- Modelled from the spec: set the height of a row. -/
def setRowHeight (f : WFile) (name : String) (row : Int) (height : ℚ) : WFile :=
  updateSheetByName f name (fun ws => { ws with rowHeights := mapInsert ws.rowHeights row height })

/-- Apply a transformation to the state of one cell address of one sheet
(absent cells start from the all-absent `CellState`). -/
def updateCellState (f : WFile) (name addr : String) (g : CellState → CellState) : WFile :=
  updateSheetByName f name (fun ws => { ws with cells := mapUpdate {} ws.cells addr g })

/-- Modelled from the spec: write a cell formula (the precision and bit-size
arguments of the underlying call carry no state). -/
def setCellFormula (f : WFile) (name addr formula : String) : WFile :=
  updateCellState f name addr (fun cs => { cs with formula := some formula })

/-- Modelled from the spec: write a numeric cell value (`SetCellFloat`). -/
def setCellFloat (f : WFile) (name addr : String) (v : ℚ) : WFile :=
  updateCellState f name addr (fun cs => { cs with value := some (.floatCell v) })

/-- Modelled from the spec: write an integer cell value (`SetCellInt`). -/
def setCellInt (f : WFile) (name addr : String) (n : ℤ) : WFile :=
  updateCellState f name addr (fun cs => { cs with value := some (.intCell n) })

/-- Modelled from the spec: write a boolean cell value (`SetCellBool`). -/
def setCellBool (f : WFile) (name addr : String) (b : Bool) : WFile :=
  updateCellState f name addr (fun cs => { cs with value := some (.boolCell b) })

/-- Modelled from the spec: `SetCellValue` with a `time.Time`: the
collaborator stores its native date/time representation of the unchanged
instant (no timezone conversion). -/
def setCellTime (f : WFile) (name addr : String) (t : ℤ) : WFile :=
  updateCellState f name addr (fun cs => { cs with value := some (.timeCell t) })

/-- Modelled from the spec: `SetCellValue` with a string. -/
def setCellStr (f : WFile) (name addr s : String) : WFile :=
  updateCellState f name addr (fun cs => { cs with value := some (.strCell s) })

/-- Modelled from the spec: assign a registered style to a cell range; the
engine always passes the same address twice. -/
def setCellStyle (f : WFile) (name hcell vcell : String) (styleID : Nat) : WFile :=
  let _ := vcell
  updateCellState f name hcell (fun cs => { cs with styleID := some styleID })

/-- Modelled from the spec: write a hyperlink (link target and link type). -/
def setCellHyperLink (f : WFile) (name addr link linkType : String) : WFile :=
  updateCellState f name addr (fun cs => { cs with hyperlink := some (link, linkType) })

/-- Modelled from the spec: merge a rectangular range. -/
def mergeCell (f : WFile) (name startCell endCell : String) : WFile :=
  updateSheetByName f name (fun ws => { ws with merges := ws.merges ++ [(startCell, endCell)] })

/-- Modelled from the spec: add a data-validation rule to a sheet. -/
def addDataValidation (f : WFile) (name : String) (dv : EngineValidation) : WFile :=
  updateSheetByName f name (fun ws => { ws with validations := ws.validations ++ [dv] })

/-- Modelled from the spec: apply sheet protection. -/
def protectSheet (f : WFile) (name : String) (opts : ProtectionOpts) : WFile :=
  updateSheetByName f name (fun ws => { ws with protection := some opts })

/-- Modelled from the spec: set the active sheet by index. -/
def setActiveSheet (f : WFile) (index : Int) : WFile :=
  { f with activeSheet := some index }

/-- Modelled from the spec: set the document properties. -/
def setDocProps (f : WFile) (props : Properties) : WFile :=
  { f with docProps := some props }

/-- Modelled from the spec: register a defined name. -/
def setDefinedName (f : WFile) (dn : EngineDefinedName) : WFile :=
  { f with definedNames := f.definedNames ++ [dn] }

/-- Modelled from the spec: register a style descriptor and receive a
generated identifier, or fail when the collaborator rejects the style.
Which descriptors are rejected is collaborator-internal, so it is a
parameter `reject`; a fresh identifier is the next table slot. -/
def newStyle (reject : EngineStyle → Bool) (f : WFile) (st : EngineStyle) :
    Option Nat × WFile :=
  if reject st then (none, f)
  else (some f.styles.length, { f with styles := f.styles ++ [st] })

/-! ## The reconstruction engine (translated from `excelrecreator.go`) -/

/-- `DefaultOptions` returns the recommended default options. -/
def DefaultOptions : Options :=
  { preserveFormulas := true
    preserveStyles := true
    preserveDataValidation := true
    skipEmptyCells := true
    defaultSheetName := "Sheet" }

/-- The `Recreator` record: fresh output file, the metadata, the resolved
options and the (initially empty) style remap table. -/
structure Recreator where
  file : WFile
  metadata : Metadata
  options : Options
  styleMap : List (Int × Nat)
  deriving DecidableEq

/-- `New` creates a `Recreator`; a `nil` options pointer (here `none`)
falls back to `DefaultOptions`. -/
def New (metadata : Metadata) (options : Option Options) : Recreator :=
  let opts := match options with
    | none => DefaultOptions
    | some o => o
  { file := newFile
    metadata := metadata
    options := opts
    styleMap := [] }

/-- `recreateDocumentProperties`: copy the metadata properties verbatim
into a collaborator properties record and set it. -/
def recreateDocumentProperties (m : Metadata) (f : WFile) : WFile :=
  setDocProps f
    { title := m.properties.title
      subject := m.properties.subject
      creator := m.properties.creator
      keywords := m.properties.keywords
      description := m.properties.description
      lastModifiedBy := m.properties.lastModifiedBy
      category := m.properties.category
      version := m.properties.version
      created := m.properties.created
      modified := m.properties.modified }

/-- The style descriptor built for one metadata style by `recreateStyles`:
each sub-record is copied only when present; a fill is copied only when it
also has at least one color; the number format is copied only when
non-zero (zero is already the descriptor's default). -/
def buildStyle (sm : StyleMeta) : EngineStyle :=
  { font := sm.font.map (fun ft =>
      { bold := ft.bold, italic := ft.italic, underline := ft.underline,
        strike := ft.strike, family := ft.family, size := ft.size,
        color := ft.color })
    fill := match sm.fill with
      | some fl =>
        if fl.color.length > 0 then
          some { type := fl.type, pattern := fl.pattern, color := fl.color }
        else none
      | none => none
    border := if sm.border.length > 0 then
        sm.border.map (fun b => { type := b.type, color := b.color, style := b.style })
      else []
    alignment := sm.alignment.map (fun al =>
      { horizontal := al.horizontal, vertical := al.vertical,
        wrapText := al.wrapText, textRotation := al.textRotation,
        indent := al.indent, shrinkToFit := al.shrinkToFit })
    numFmt := if sm.numberFormat ≠ 0 then sm.numberFormat else 0
    protection := sm.protection.map (fun p =>
      { hidden := p.hidden, locked := p.locked }) }

/-- `recreateStyles`: for each entry of the style map (in the iteration
order given by the list), build the descriptor and register it; on success
record `oldID ↦ newID` in the remap table, on rejection record nothing and
continue.  The Go function always returns a `nil` error, which is why this
model returns plain state. -/
def recreateStyles (reject : EngineStyle → Bool) :
    List (Int × StyleMeta) → WFile → List (Int × Nat) → WFile × List (Int × Nat)
  | [], f, smap => (f, smap)
  | (oldID, styleMeta) :: rest, f, smap =>
    let style := buildStyle styleMeta
    match newStyle reject f style with
    | (some newID, f') => recreateStyles reject rest f' (mapInsert smap oldID newID)
    | (none, f') => recreateStyles reject rest f' smap

/-- The type switch of `recreateCells` on a non-nil cell value: floats and
integers are written as numbers, booleans as booleans, times via the
collaborator's native date representation; any other value is coerced via
its textual form, written as a number when `strconv.ParseFloat` accepts it
and as a literal string otherwise. -/
def setCellByValue (f : WFile) (sheetName addr : String) : CellValue → WFile
  | .vFloat32 v => setCellFloat f sheetName addr v
  | .vFloat64 v => setCellFloat f sheetName addr v
  | .vInt n => setCellInt f sheetName addr n
  | .vInt8 n => setCellInt f sheetName addr n
  | .vInt16 n => setCellInt f sheetName addr n
  | .vInt32 n => setCellInt f sheetName addr n
  | .vBool b => setCellBool f sheetName addr b
  | .vTime t => setCellTime f sheetName addr t
  | .vOther text =>
    let strVal := text
    match parseGoFloat strVal with
    | some floatVal => setCellFloat f sheetName addr floatVal
    | none => setCellStr f sheetName addr strVal

/-- The body of the per-cell loop of `recreateCells`: skip entirely when
the skip-empty option is set and the cell has neither value nor formula;
otherwise write the formula (when present and preserved) or else the typed
value; then independently apply the remapped style (only when style
preservation is on, the id is non-zero and the remap table has it) and the
hyperlink (whenever present). -/
def applyCell (o : Options) (smap : List (Int × Nat)) (sheetName : String)
    (f : WFile) (cell : CellMetadata) : WFile :=
  if o.skipEmptyCells = true ∧ cell.value = none ∧ cell.formula = "" then f
  else
    let f1 :=
      if cell.formula ≠ "" ∧ o.preserveFormulas = true then
        setCellFormula f sheetName cell.address cell.formula
      else
        match cell.value with
        | some v => setCellByValue f sheetName cell.address v
        | none => f
    let f2 :=
      if o.preserveStyles = true ∧ cell.styleID ≠ 0 then
        match alookup smap cell.styleID with
        | some newStyleID => setCellStyle f1 sheetName cell.address cell.address newStyleID
        | none => f1
      else f1
    match cell.hyperlink with
    | some h => setCellHyperLink f2 sheetName cell.address h.link "Location"
    | none => f2

/-- `recreateCells`: the per-cell loop in declaration order.  The only
fallible collaborator call of the loop (`SetCellFormula`) is modelled as
total, so the loop is modelled as state-transforming. -/
def recreateCells (o : Options) (smap : List (Int × Nat)) (sheetName : String)
    (f : WFile) (cells : List CellMetadata) : WFile :=
  cells.foldl (applyCell o smap sheetName) f

/-- `recreateDataValidation`: field-by-field copy into the collaborator's
validation record. -/
def recreateDataValidation (f : WFile) (sheetName : String) (dv : DataValidationMeta) : WFile :=
  addDataValidation f sheetName
    { type := dv.type
      operator := dv.operator
      formula1 := dv.formula1
      formula2 := dv.formula2
      showErrorMessage := dv.showError
      errorTitle := dv.errorTitle
      error := dv.errorMessage
      sqref := dv.range }

/-- `recreateSheetProtection`: copy the permission flags and password. -/
def recreateSheetProtection (f : WFile) (sheetName : String) (p : SheetProtectionMeta) : WFile :=
  protectSheet f sheetName
    { password := p.password
      editObjects := p.editObjects
      editScenarios := p.editScenarios
      selectLockedCells := p.selectLockedCells
      selectUnlockedCells := p.selectUnlockedCells }

/-- The sheet name `recreateSheet` creates: the declared name, or, when it
is empty, `DefaultSheetName` followed by the declared index plus one
(`fmt.Sprintf("%s%d", r.options.DefaultSheetName, sheetMeta.Index+1)`). -/
def resolvedSheetName (o : Options) (sm : SheetMetadata) : String :=
  if sm.name = "" then o.defaultSheetName ++ toString (sm.index + 1) else sm.name

/-- The pipeline `recreateSheet` runs on the file after the sheet has been
created: visibility, column widths, row heights, cells, merges, validations
(when preserved) and protection (when present and flagged), in that fixed
order. -/
def sheetBody (o : Options) (smap : List (Int × Nat)) (sheetName : String)
    (sheetMeta : SheetMetadata) (f1 : WFile) : WFile :=
  let f2 := setSheetVisible f1 sheetName sheetMeta.visible
  let f3 := sheetMeta.colWidths.foldl
    (fun fa cw => setColWidth fa sheetName cw.1 cw.1 cw.2) f2
  let f4 := sheetMeta.rowHeights.foldl
    (fun fa rh => setRowHeight fa sheetName rh.1 rh.2) f3
  let f5 := recreateCells o smap sheetName f4 sheetMeta.cells
  let f6 := sheetMeta.mergedCells.foldl
    (fun fa mg => mergeCell fa sheetName mg.startCell mg.endCell) f5
  let f7 := if o.preserveDataValidation = true then
      sheetMeta.dataValidations.foldl
        (fun fa dv => recreateDataValidation fa sheetName dv) f6
    else f6
  match sheetMeta.protection with
  | some p => if p.protectedFlag = true then recreateSheetProtection f7 sheetName p else f7
  | none => f7

/-- `recreateSheet`: resolve the name, create the sheet (fatal on failure),
then run the fixed `sheetBody` pipeline on it. -/
def recreateSheet (o : Options) (smap : List (Int × Nat)) (f : WFile)
    (sheetMeta : SheetMetadata) : Except String WFile :=
  let sheetName := resolvedSheetName o sheetMeta
  match newSheet f sheetName with
  | .error e => .error e
  | .ok f1 => .ok (sheetBody o smap sheetName sheetMeta f1)

/-- The per-sheet loop of `Recreate`: reconstruct every sheet in metadata
order, propagating the first fatal error. -/
def recreateSheetsLoop (o : Options) (smap : List (Int × Nat)) :
    WFile → List SheetMetadata → Except String WFile
  | f, [] => .ok f
  | f, sm :: rest =>
    match recreateSheet o smap f sm with
    | .error e => .error e
    | .ok f' => recreateSheetsLoop o smap f' rest

/-- `recreateDefinedNames`: register every defined name (each collaborator
call modelled as total). -/
def recreateDefinedNames (m : Metadata) (f : WFile) : WFile :=
  m.definedNames.foldl
    (fun fa dn => setDefinedName fa { name := dn.name, refersTo := dn.refersTo, scope := dn.scope })
    f

/-- `Recreate`: document properties; styles (only when preserved and at
least one exists); delete the default placeholder sheet `Sheet1` (only
when at least one sheet is declared); every sheet in order; defined names
(only when formulas are preserved and at least one exists); finally scan
the sheets in metadata order and set the active sheet to the declared
index of the first visible one. -/
def recreate (reject : EngineStyle → Bool) (m : Metadata) (o : Options) :
    Except String WFile :=
  let f1 := recreateDocumentProperties m newFile
  let styled :=
    if o.preserveStyles = true ∧ m.styles.length > 0 then
      recreateStyles reject m.styles f1 []
    else (f1, [])
  let f2 := styled.1
  let smap := styled.2
  let f3 := if m.sheets.length > 0 then deleteSheet f2 "Sheet1" else f2
  match recreateSheetsLoop o smap f3 m.sheets with
  | .error e => .error e
  | .ok f4 =>
    let f5 := if o.preserveFormulas = true ∧ m.definedNames.length > 0 then
        recreateDefinedNames m f4
      else f4
    let f6 := match m.sheets.find? (fun s => s.visible = true) with
      | some sheet => setActiveSheet f5 sheet.index
      | none => f5
    .ok f6

/-! ## Frame lemmas

The per-sheet content operations never touch the list of sheet names nor
the non-sheet fields of the workbook; these facts are packaged as equality
of a `frame` projection. -/

/-- The names of the sheets of a workbook, in order. -/
def sheetNames (f : WFile) : List String := f.sheets.map (fun ws => ws.name)

/-- The parts of the workbook state that per-sheet content operations
leave unchanged. -/
def frame (f : WFile) :
    List String × List EngineStyle × Option Int × Option Properties × List EngineDefinedName :=
  (sheetNames f, f.styles, f.activeSheet, f.docProps, f.definedNames)

theorem frame_updateSheetByName (f : WFile) (n : String) (g : WSheet → WSheet)
    (h : ∀ ws, (g ws).name = ws.name) : frame (updateSheetByName f n g) = frame f := by
  have hnames : sheetNames (updateSheetByName f n g) = sheetNames f := by
    simp only [sheetNames, updateSheetByName, List.map_map]
    refine List.map_congr_left fun ws _ => ?_
    by_cases hw : ws.name = n
    · simp [hw, h ws]
    · simp [hw]
  simp only [frame, hnames]
  rfl

theorem frame_foldl {α : Type} (g : WFile → α → WFile)
    (h : ∀ f a, frame (g f a) = frame f) :
    ∀ (l : List α) (f : WFile), frame (l.foldl g f) = frame f := by
  intro l
  induction l with
  | nil => intro f; rfl
  | cons a t ih => intro f; rw [List.foldl_cons, ih, h]

theorem frame_updateCellState (f : WFile) (n addr : String) (g : CellState → CellState) :
    frame (updateCellState f n addr g) = frame f :=
  frame_updateSheetByName _ _ _ (fun _ => rfl)

theorem frame_setCellByValue (f : WFile) (n addr : String) (v : CellValue) :
    frame (setCellByValue f n addr v) = frame f := by
  cases v <;>
    first
    | exact frame_updateCellState ..
    | · simp only [setCellByValue]
        split <;> exact frame_updateCellState ..

theorem frame_applyCell (o : Options) (smap : List (Int × Nat)) (n : String)
    (f : WFile) (c : CellMetadata) : frame (applyCell o smap n f c) = frame f := by
  unfold applyCell
  split
  · rfl
  · have h1 : ∀ f' : WFile,
        frame (if c.formula ≠ "" ∧ o.preserveFormulas = true then
          setCellFormula f' n c.address c.formula
        else match c.value with
          | some v => setCellByValue f' n c.address v
          | none => f') = frame f' := by
      intro f'
      split
      · exact frame_updateCellState ..
      · split
        · exact frame_setCellByValue ..
        · rfl
    have h2 : ∀ f' : WFile,
        frame (if o.preserveStyles = true ∧ c.styleID ≠ 0 then
          match alookup smap c.styleID with
          | some newStyleID => setCellStyle f' n c.address c.address newStyleID
          | none => f'
        else f') = frame f' := by
      intro f'
      split
      · split
        · exact frame_updateCellState ..
        · rfl
      · rfl
    have h3 : ∀ f' : WFile,
        frame (match c.hyperlink with
          | some h => setCellHyperLink f' n c.address h.link "Location"
          | none => f') = frame f' := by
      intro f'
      split
      · exact frame_updateCellState ..
      · rfl
    rw [h3, h2, h1]

theorem frame_recreateCells (o : Options) (smap : List (Int × Nat)) (n : String)
    (f : WFile) (cells : List CellMetadata) :
    frame (recreateCells o smap n f cells) = frame f :=
  frame_foldl _ (fun f' c => frame_applyCell o smap n f' c) cells f

/-- `frame` is unchanged by the whole post-creation sheet pipeline. -/
theorem frame_sheetBody (o : Options) (smap : List (Int × Nat)) (n : String)
    (sm : SheetMetadata) (f1 : WFile) : frame (sheetBody o smap n sm f1) = frame f1 := by
  have hvis : ∀ (f' : WFile), frame (setSheetVisible f' n sm.visible) = frame f' :=
    fun f' => frame_updateSheetByName _ _ _ (fun _ => rfl)
  have hcw1 : ∀ (f' : WFile) (cw : String × ℚ),
      frame (setColWidth f' n cw.1 cw.1 cw.2) = frame f' :=
    fun f' _ => frame_updateSheetByName _ _ _ (fun _ => rfl)
  have hcw : ∀ (f' : WFile), frame (sm.colWidths.foldl
      (fun fa cw => setColWidth fa n cw.1 cw.1 cw.2) f') = frame f' :=
    fun f' => frame_foldl _ hcw1 _ f'
  have hrh1 : ∀ (f' : WFile) (rh : Int × ℚ),
      frame (setRowHeight f' n rh.1 rh.2) = frame f' :=
    fun f' _ => frame_updateSheetByName _ _ _ (fun _ => rfl)
  have hrh : ∀ (f' : WFile), frame (sm.rowHeights.foldl
      (fun fa rh => setRowHeight fa n rh.1 rh.2) f') = frame f' :=
    fun f' => frame_foldl _ hrh1 _ f'
  have hmg1 : ∀ (f' : WFile) (mg : MergedCell),
      frame (mergeCell f' n mg.startCell mg.endCell) = frame f' :=
    fun f' _ => frame_updateSheetByName _ _ _ (fun _ => rfl)
  have hmg : ∀ (f' : WFile), frame (sm.mergedCells.foldl
      (fun fa mg => mergeCell fa n mg.startCell mg.endCell) f') = frame f' :=
    fun f' => frame_foldl _ hmg1 _ f'
  have hdv1 : ∀ (f' : WFile) (dv : DataValidationMeta),
      frame (recreateDataValidation f' n dv) = frame f' :=
    fun f' _ => frame_updateSheetByName _ _ _ (fun _ => rfl)
  have hdv : ∀ (f' : WFile), frame (if o.preserveDataValidation = true then
      sm.dataValidations.foldl (fun fa dv => recreateDataValidation fa n dv) f'
    else f') = frame f' := by
    intro f'
    split
    · exact frame_foldl _ hdv1 _ f'
    · rfl
  have hpr : ∀ (f' : WFile), frame (match sm.protection with
      | some p => if p.protectedFlag = true then recreateSheetProtection f' n p else f'
      | none => f') = frame f' := by
    intro f'
    split
    · split
      · exact frame_updateSheetByName _ _ _ (fun _ => rfl)
      · rfl
    · rfl
  show frame _ = frame f1
  simp only [sheetBody]
  rw [hpr, hdv, hmg, frame_recreateCells, hrh, hcw, hvis]

/-- A successful `recreateSheet` appends exactly one sheet, named by
`resolvedSheetName`, and leaves the non-sheet fields unchanged. -/
theorem recreateSheet_ok (o : Options) (smap : List (Int × Nat)) (f : WFile)
    (sm : SheetMetadata) (f' : WFile) (h : recreateSheet o smap f sm = .ok f') :
    sheetNames f' = sheetNames f ++ [resolvedSheetName o sm] ∧ f'.styles = f.styles ∧
      f'.activeSheet = f.activeSheet ∧ f'.docProps = f.docProps ∧
      f'.definedNames = f.definedNames := by
  simp only [recreateSheet] at h
  rcases hns : newSheet f (resolvedSheetName o sm) with e | f1
  · rw [hns] at h
    exact absurd h (by simp)
  · rw [hns] at h
    simp only [Except.ok.injEq] at h
    subst h
    simp only [newSheet] at hns
    split at hns
    · exact absurd hns (by simp)
    · simp only [Except.ok.injEq] at hns
      subst hns
      have hb := frame_sheetBody o smap (resolvedSheetName o sm) sm
        { f with sheets := f.sheets ++ [{ name := resolvedSheetName o sm }] }
      simp only [frame, Prod.mk.injEq] at hb
      refine ⟨?_, hb.2.1, hb.2.2.1, hb.2.2.2.1, hb.2.2.2.2⟩
      rw [hb.1]
      simp [sheetNames]

/-- A successful sheet loop appends one sheet per metadata sheet, in
declaration order, named by `resolvedSheetName`, and leaves the non-sheet
fields unchanged. -/
theorem recreateSheetsLoop_ok (o : Options) (smap : List (Int × Nat)) :
    ∀ (l : List SheetMetadata) (f f' : WFile),
      recreateSheetsLoop o smap f l = .ok f' →
      sheetNames f' = sheetNames f ++ l.map (resolvedSheetName o) ∧ f'.styles = f.styles ∧
        f'.activeSheet = f.activeSheet ∧ f'.docProps = f.docProps ∧
        f'.definedNames = f.definedNames := by
  intro l
  induction l with
  | nil =>
    intro f f' h
    simp only [recreateSheetsLoop, Except.ok.injEq] at h
    subst h
    simp
  | cons sm t ih =>
    intro f f' h
    simp only [recreateSheetsLoop] at h
    rcases hsm : recreateSheet o smap f sm with e | f1
    · rw [hsm] at h
      exact absurd h (by simp)
    · rw [hsm] at h
      have h1 := recreateSheet_ok o smap f sm f1 hsm
      have h2 := ih f1 f' h
      refine ⟨?_, h2.2.1.trans h1.2.1, h2.2.2.1.trans h1.2.2.1,
        h2.2.2.2.1.trans h1.2.2.2.1, h2.2.2.2.2.trans h1.2.2.2.2⟩
      rw [h2.1, h1.1]
      simp

/-- `recreateStyles` only touches the style table and the remap table. -/
theorem recreateStyles_frame (reject : EngineStyle → Bool) :
    ∀ (l : List (Int × StyleMeta)) (f : WFile) (smap : List (Int × Nat)),
      sheetNames (recreateStyles reject l f smap).1 = sheetNames f ∧
      (recreateStyles reject l f smap).1.activeSheet = f.activeSheet ∧
      (recreateStyles reject l f smap).1.docProps = f.docProps ∧
      (recreateStyles reject l f smap).1.definedNames = f.definedNames := by
  intro l
  induction l with
  | nil => intro f smap; exact ⟨rfl, rfl, rfl, rfl⟩
  | cons e t ih =>
    intro f smap
    obtain ⟨oldID, smeta⟩ := e
    simp only [recreateStyles, newStyle]
    by_cases hr : reject (buildStyle smeta) = true
    · rw [if_pos hr]
      exact ih f smap
    · rw [if_neg hr]
      exact ih { f with styles := f.styles ++ [buildStyle smeta] }
        (mapInsert smap oldID f.styles.length)

/-- `recreateDefinedNames` only touches the defined-name table. -/
theorem recreateDefinedNames_frame (m : Metadata) (f : WFile) :
    sheetNames (recreateDefinedNames m f) = sheetNames f ∧
    (recreateDefinedNames m f).styles = f.styles ∧
    (recreateDefinedNames m f).activeSheet = f.activeSheet ∧
    (recreateDefinedNames m f).docProps = f.docProps := by
  unfold recreateDefinedNames
  generalize m.definedNames = l
  induction l generalizing f with
  | nil => exact ⟨rfl, rfl, rfl, rfl⟩
  | cons dn t ih => exact ih _

/-- Deleting the only sheet, by its name, leaves no sheets. -/
theorem sheetNames_deleteSheet_all (f : WFile) (nm : String)
    (hf : sheetNames f = [nm]) : sheetNames (deleteSheet f nm) = [] := by
  rcases hs : f.sheets with _ | ⟨ws, rest⟩
  · simp [sheetNames, hs] at hf
  · have h1 : ws.name = nm ∧ rest.map (fun ws => ws.name) = [] := by
      simpa [sheetNames, hs] using hf
    have h2 : rest = [] := List.map_eq_nil_iff.mp h1.2
    simp [sheetNames, deleteSheet, hs, h1.1, h2]

/-- Characterization of a successful full run: the active-sheet field holds
the declared index of the first visible metadata sheet (or nothing), and
the output sheet names are exactly the resolved metadata sheet names, with
the placeholder `Sheet1` surviving only a sheetless metadata document. -/
theorem recreate_ok_spec (reject : EngineStyle → Bool) (m : Metadata) (o : Options)
    (f' : WFile) (h : recreate reject m o = .ok f') :
    f'.activeSheet = (m.sheets.find? (fun s => s.visible = true)).map (fun s => s.index) ∧
    sheetNames f' = if m.sheets.length > 0 then m.sheets.map (resolvedSheetName o)
      else ["Sheet1"] := by
  simp only [recreate] at h
  split at h
  next e heq => exact absurd h (by simp)
  next f4 heq =>
    have hsty : sheetNames (if o.preserveStyles = true ∧ m.styles.length > 0 then
          recreateStyles reject m.styles (recreateDocumentProperties m newFile) []
        else (recreateDocumentProperties m newFile, [])).1 = ["Sheet1"] ∧
        (if o.preserveStyles = true ∧ m.styles.length > 0 then
          recreateStyles reject m.styles (recreateDocumentProperties m newFile) []
        else (recreateDocumentProperties m newFile, [])).1.activeSheet = none := by
      split
      · have hfr := recreateStyles_frame reject m.styles (recreateDocumentProperties m newFile) []
        exact ⟨hfr.1.trans rfl, hfr.2.1.trans rfl⟩
      · exact ⟨rfl, rfl⟩
    have hF3 : sheetNames (if m.sheets.length > 0 then
          deleteSheet (if o.preserveStyles = true ∧ m.styles.length > 0 then
            recreateStyles reject m.styles (recreateDocumentProperties m newFile) []
          else (recreateDocumentProperties m newFile, [])).1 "Sheet1"
        else (if o.preserveStyles = true ∧ m.styles.length > 0 then
            recreateStyles reject m.styles (recreateDocumentProperties m newFile) []
          else (recreateDocumentProperties m newFile, [])).1) =
        (if m.sheets.length > 0 then [] else ["Sheet1"]) ∧
        (if m.sheets.length > 0 then
          deleteSheet (if o.preserveStyles = true ∧ m.styles.length > 0 then
            recreateStyles reject m.styles (recreateDocumentProperties m newFile) []
          else (recreateDocumentProperties m newFile, [])).1 "Sheet1"
        else (if o.preserveStyles = true ∧ m.styles.length > 0 then
            recreateStyles reject m.styles (recreateDocumentProperties m newFile) []
          else (recreateDocumentProperties m newFile, [])).1).activeSheet = none := by
      split
      · exact ⟨sheetNames_deleteSheet_all _ _ hsty.1, hsty.2⟩
      · exact ⟨hsty.1, hsty.2⟩
    have hl := recreateSheetsLoop_ok o _ m.sheets _ f4 heq
    have h4names : sheetNames f4 =
        (if m.sheets.length > 0 then [] else ["Sheet1"]) ++ m.sheets.map (resolvedSheetName o) := by
      rw [hl.1, hF3.1]
    have h4active : f4.activeSheet = none := hl.2.2.1.trans hF3.2
    simp only [Except.ok.injEq] at h
    subst h
    have hF5names : sheetNames (if o.preserveFormulas = true ∧ m.definedNames.length > 0 then
        recreateDefinedNames m f4 else f4) = sheetNames f4 := by
      split
      · exact (recreateDefinedNames_frame m f4).1
      · rfl
    have hF5active : (if o.preserveFormulas = true ∧ m.definedNames.length > 0 then
        recreateDefinedNames m f4 else f4).activeSheet = none := by
      split
      · exact (recreateDefinedNames_frame m f4).2.2.1.trans h4active
      · exact h4active
    have hnamesGoal : ∀ (g : WFile), sheetNames g = sheetNames f4 →
        sheetNames g = if m.sheets.length > 0 then m.sheets.map (resolvedSheetName o)
          else ["Sheet1"] := by
      intro g hg
      rw [hg, h4names]
      split
      next hpos => simp
      next hneg =>
        have : m.sheets = [] := List.length_eq_zero.mp (by omega)
        simp [this]
    rcases hf : List.find? (fun s => decide (s.visible = true)) m.sheets with _ | s
    · rw [hf]
      simp only [Option.map_none']
      constructor
      · exact hF5active
      · exact hnamesGoal _ hF5names
    · rw [hf]
      simp only [Option.map_some']
      constructor
      · rfl
      · exact hnamesGoal _ hF5names

/-! ## Concrete fixtures used by witnesses and counterexamples -/

/-- A collaborator that accepts every style descriptor. -/
def rejectNone : EngineStyle → Bool := fun _ => false

/-- All-empty document properties. -/
def emptyProps : Properties :=
  { title := "", subject := "", creator := "", keywords := "", description := "",
    lastModifiedBy := "", category := "", version := "", created := "", modified := "" }

/-- A content-free sheet with the given declared index, name and visibility. -/
def plainSheet (idx : Int) (nm : String) (vis : Bool) : SheetMetadata :=
  { index := idx, name := nm, visible := vis, colWidths := [], rowHeights := [],
    cells := [], mergedCells := [], dataValidations := [], protection := none }

/-- Two visible sheets whose declared indices disagree with their
positions: sheet `A` (first in order) declares index 1, sheet `B` declares
index 0. -/
def docTwoVisible : Metadata :=
  { properties := emptyProps, sheets := [plainSheet 1 "A" true, plainSheet 0 "B" true],
    styles := [], definedNames := [] }

/-- One sheet with an empty name sitting at position 0 while declaring
index 5. -/
def docUnnamedSheet : Metadata :=
  { properties := emptyProps, sheets := [plainSheet 5 "" false],
    styles := [], definedNames := [] }

/-! ## Claim theorems -/

/-- C1, counterexample: on `docTwoVisible` the first visible sheet in
metadata order is `A` (resolved name `A`), yet the run sets active index 1
and the sheet sitting at index 1 of the output is `B`, not `A` — the
active sheet is not the first visible sheet; it is selected by the
declared index value. -/
theorem recreate_active_not_first_visible :
    (recreate rejectNone docTwoVisible DefaultOptions).toOption.bind
        (fun f => f.activeSheet.bind (fun i => (f.sheets.map (fun ws => ws.name))[i.toNat]?)) =
      some "B" ∧
    (docTwoVisible.sheets.find? (fun s => s.visible = true)).map
        (resolvedSheetName DefaultOptions) = some "A" ∧
    ("A" : String) ≠ "B" := by decide

/-- C1 (amended): after a successful `Recreate`, the workbook's active
sheet index equals the declared `Index` field of the first sheet in
metadata order whose visibility flag is true; if no sheet is visible, no
active sheet is explicitly set. -/
theorem recreate_active_is_declared_index (reject : EngineStyle → Bool) (m : Metadata)
    (o : Options) (h : (recreate reject m o).isOk = true) :
    (recreate reject m o).map (fun f => f.activeSheet) =
      .ok ((m.sheets.find? (fun s => s.visible = true)).map (fun s => s.index)) := by
  rcases hr : recreate reject m o with e | f'
  · exact absurd h (by simp [Except.isOk, Except.toBool, hr])
  · simp only [Except.map]
    exact congrArg Except.ok (recreate_ok_spec reject m o f' hr).1

/-- Witness for C1 at `docTwoVisible`: the run succeeds and the active
index is the declared index of the first visible sheet. -/
theorem recreate_active_is_declared_index_witness :
    (recreate rejectNone docTwoVisible DefaultOptions).isOk = true ∧
    (recreate rejectNone docTwoVisible DefaultOptions).map (fun f => f.activeSheet) =
      .ok ((docTwoVisible.sheets.find? (fun s => s.visible = true)).map (fun s => s.index)) :=
  ⟨by decide, recreate_active_is_declared_index rejectNone docTwoVisible DefaultOptions (by decide)⟩

/-- C2: a successful `Recreate` yields exactly one output sheet per
metadata sheet, in order and with the resolved names, with no leftover
placeholder; a sheetless metadata document keeps the placeholder, so the
output never has zero sheets. -/
theorem recreate_sheets_exactly (reject : EngineStyle → Bool) (m : Metadata)
    (o : Options) (h : (recreate reject m o).isOk = true) :
    (recreate reject m o).map sheetNames =
      .ok (if m.sheets.length > 0 then m.sheets.map (resolvedSheetName o) else ["Sheet1"]) ∧
    (recreate reject m o).map (fun f => f.sheets.length) =
      .ok (if m.sheets.length > 0 then m.sheets.length else 1) := by
  rcases hr : recreate reject m o with e | f'
  · exact absurd h (by simp [Except.isOk, Except.toBool, hr])
  · have hs := (recreate_ok_spec reject m o f' hr).2
    simp only [Except.map]
    refine ⟨congrArg Except.ok hs, congrArg Except.ok ?_⟩
    have hlen : f'.sheets.length = (sheetNames f').length := (List.length_map _ _).symm
    rw [hlen, hs]
    split <;> simp

/-- Witness for C2 at `docTwoVisible`: two metadata sheets give exactly
the two sheets `A`, `B` and no placeholder. -/
theorem recreate_sheets_exactly_witness :
    (recreate rejectNone docTwoVisible DefaultOptions).isOk = true ∧
    ((recreate rejectNone docTwoVisible DefaultOptions).map sheetNames =
      .ok (if docTwoVisible.sheets.length > 0 then
        docTwoVisible.sheets.map (resolvedSheetName DefaultOptions) else ["Sheet1"]) ∧
    (recreate rejectNone docTwoVisible DefaultOptions).map (fun f => f.sheets.length) =
      .ok (if docTwoVisible.sheets.length > 0 then docTwoVisible.sheets.length else 1)) :=
  ⟨by decide, recreate_sheets_exactly rejectNone docTwoVisible DefaultOptions (by decide)⟩

/-- C4, counterexample: the sheet of `docUnnamedSheet` has the empty name
and sits at position 0 of the declared sequence, so the claim's synthesized
name would be `Sheet1` (the name prefix followed by position+1); the code instead creates it
as `Sheet6`, using the declared index field 5. -/
theorem recreateSheet_name_not_position :
    (recreate rejectNone docUnnamedSheet DefaultOptions).toOption.map sheetNames =
      some ["Sheet6"] ∧
    ("Sheet6" : String) ≠ DefaultOptions.defaultSheetName ++ toString ((0 : Int) + 1) := by
  decide

/-- C4 (amended): a sheet whose declared name is empty is created under
the synthesized name `DefaultSheetName ++ (Index + 1)`, where `Index` is
the sheet's declared index field (not its position in the sequence). -/
theorem recreateSheet_empty_name (o : Options) (smap : List (Int × Nat)) (f : WFile)
    (sm : SheetMetadata) (hname : sm.name = "")
    (h : (recreateSheet o smap f sm).isOk = true) :
    (recreateSheet o smap f sm).map (fun f' => (sheetNames f').getLast?) =
      .ok (some (o.defaultSheetName ++ toString (sm.index + 1))) := by
  rcases hr : recreateSheet o smap f sm with e | f1
  · exact absurd h (by simp [Except.isOk, Except.toBool, hr])
  · simp only [Except.map, Except.ok.injEq]
    have hspec := (recreateSheet_ok o smap f sm f1 hr).1
    rw [hspec, List.getLast?_concat]
    simp [resolvedSheetName, hname]

/-- Witness for C4 at the unnamed sheet with declared index 5: the sheet
is created as `Sheet6`. -/
theorem recreateSheet_empty_name_witness :
    (plainSheet 5 "" false).name = "" ∧
    (recreateSheet DefaultOptions [] newFile (plainSheet 5 "" false)).isOk = true ∧
    (recreateSheet DefaultOptions [] newFile (plainSheet 5 "" false)).map
        (fun f' => (sheetNames f').getLast?) =
      .ok (some (DefaultOptions.defaultSheetName ++ toString ((plainSheet 5 "" false).index + 1))) :=
  ⟨by decide, by decide,
    recreateSheet_empty_name DefaultOptions [] newFile (plainSheet 5 "" false)
      (by decide) (by decide)⟩

/-- C10: `New` with a nil options pointer behaves exactly like `New` with
`DefaultOptions`, whose fields are all-true preservation flags and the
sheet-name prefix `Sheet`. -/
theorem New_nil_options_defaults (m : Metadata) :
    New m none = New m (some DefaultOptions) ∧
    DefaultOptions.preserveFormulas = true ∧
    DefaultOptions.preserveStyles = true ∧
    DefaultOptions.preserveDataValidation = true ∧
    DefaultOptions.skipEmptyCells = true ∧
    DefaultOptions.defaultSheetName = "Sheet" :=
  ⟨rfl, rfl, rfl, rfl, rfl, rfl⟩

/-! ## Cell-level machinery -/

theorem alookup_mapUpdate_self {α β : Type} [DecidableEq α] (dflt : β) :
    ∀ (l : List (α × β)) (k : α) (g : β → β),
      alookup (mapUpdate dflt l k g) k = some (g ((alookup l k).getD dflt)) := by
  intro l
  induction l with
  | nil => intro k g; simp [alookup, mapUpdate]
  | cons e t ih =>
    intro k g
    obtain ⟨k', v'⟩ := e
    by_cases hk : k' = k
    · subst hk
      simp [alookup, mapUpdate]
    · simp [alookup, mapUpdate, hk, ih]

theorem alookup_mapUpdate_ne {α β : Type} [DecidableEq α] (dflt : β) :
    ∀ (l : List (α × β)) (k a : α) (g : β → β), k ≠ a →
      alookup (mapUpdate dflt l k g) a = alookup l a := by
  intro l
  induction l with
  | nil => intro k a g hka; simp [alookup, mapUpdate, hka]
  | cons e t ih =>
    intro k a g hka
    obtain ⟨k', v'⟩ := e
    by_cases hk : k' = k
    · subst hk
      simp [alookup, mapUpdate, hka]
    · simp only [mapUpdate, if_neg hk, alookup]
      by_cases ha : k' = a
      · simp [ha]
      · simp [ha, ih _ _ _ hka]

theorem alookup_mapInsert_self {α β : Type} [DecidableEq α] :
    ∀ (l : List (α × β)) (k : α) (v : β), alookup (mapInsert l k v) k = some v := by
  intro l
  induction l with
  | nil => intro k v; simp [alookup, mapInsert]
  | cons e t ih =>
    intro k v
    obtain ⟨k', v'⟩ := e
    by_cases hk : k' = k
    · subst hk
      simp [alookup, mapInsert]
    · simp [alookup, mapInsert, hk, ih]

theorem alookup_mapInsert_ne {α β : Type} [DecidableEq α] :
    ∀ (l : List (α × β)) (k a : α) (v : β), k ≠ a →
      alookup (mapInsert l k v) a = alookup l a := by
  intro l
  induction l with
  | nil => intro k a v hka; simp [alookup, mapInsert, hka]
  | cons e t ih =>
    intro k a v hka
    obtain ⟨k', v'⟩ := e
    by_cases hk : k' = k
    · subst hk
      simp [alookup, mapInsert, hka]
    · simp only [mapInsert, if_neg hk, alookup]
      by_cases ha : k' = a
      · simp [ha]
      · simp [ha, ih _ _ _ hka]

/-- The collaborator's state of the cell at address `a` of the sheet named
`n`, or `none` when the sheet has no such cell (or no such sheet). -/
def cellAt (f : WFile) (n a : String) : Option CellState :=
  (f.sheets.find? (fun ws => ws.name = n)).bind (fun ws => alookup ws.cells a)

theorem find_bind_update (n addr a : String) (g : CellState → CellState) :
    ∀ (l : List WSheet),
      (((l.map (fun ws => if ws.name = n then
          { ws with cells := mapUpdate {} ws.cells addr g } else ws)).find?
            (fun ws => ws.name = n)).bind (fun ws => alookup ws.cells a)) =
        if addr = a then
          ((l.find? (fun ws => ws.name = n)).map
            (fun ws => g ((alookup ws.cells a).getD {})))
        else ((l.find? (fun ws => ws.name = n)).bind (fun ws => alookup ws.cells a)) := by
  intro l
  induction l with
  | nil => simp [List.find?]
  | cons ws t ih =>
    simp only [List.map_cons]
    by_cases hw : ws.name = n
    · rw [if_pos hw, List.find?_cons_of_pos _ (by simp [hw]),
        List.find?_cons_of_pos _ (by simp [hw])]
      simp only [Option.some_bind, Option.map_some']
      by_cases ha : addr = a
      · subst ha
        rw [if_pos rfl, alookup_mapUpdate_self]
      · rw [if_neg ha, alookup_mapUpdate_ne _ _ _ _ _ ha]
    · rw [if_neg hw, List.find?_cons_of_neg _ (by simp [hw]),
        List.find?_cons_of_neg _ (by simp [hw])]
      exact ih

theorem cellAt_updateCellState (f : WFile) (n addr a : String) (g : CellState → CellState) :
    cellAt (updateCellState f n addr g) n a =
      if addr = a then
        ((f.sheets.find? (fun ws => ws.name = n)).map
          (fun ws => g ((alookup ws.cells a).getD {})))
      else cellAt f n a :=
  find_bind_update n addr a g f.sheets

/-- Whether the workbook has a sheet named `n`. -/
def hasSheet (f : WFile) (n : String) : Bool :=
  (f.sheets.find? (fun ws => ws.name = n)).isSome

theorem cellAt_updateCellState_self (f : WFile) (n a : String) (g : CellState → CellState)
    (hs : hasSheet f n = true) :
    cellAt (updateCellState f n a g) n a = some (g ((cellAt f n a).getD {})) := by
  rw [cellAt_updateCellState, if_pos rfl]
  unfold hasSheet at hs
  rcases hw : f.sheets.find? (fun ws => ws.name = n) with _ | ws
  · rw [hw] at hs
    simp at hs
  · simp [cellAt, hw]

theorem cellAt_updateCellState_other (f : WFile) (n addr a : String)
    (g : CellState → CellState) (hne : addr ≠ a) :
    cellAt (updateCellState f n addr g) n a = cellAt f n a := by
  rw [cellAt_updateCellState, if_neg hne]

theorem hasSheet_updateSheetByName (f : WFile) (n' : String) (g : WSheet → WSheet)
    (hg : ∀ ws, (g ws).name = ws.name) (n : String) :
    hasSheet (updateSheetByName f n' g) n = hasSheet f n := by
  unfold hasSheet updateSheetByName
  simp only
  induction f.sheets with
  | nil => simp [List.find?]
  | cons ws t ih =>
    by_cases hw : ws.name = n
    · by_cases hw' : ws.name = n'
      · simp only [List.map_cons, if_pos hw']
        rw [List.find?_cons_of_pos _ (by simp [hg, hw]), List.find?_cons_of_pos _ (by simp [hw])]
        rfl
      · simp only [List.map_cons, if_neg hw']
        rw [List.find?_cons_of_pos _ (by simp [hw]), List.find?_cons_of_pos _ (by simp [hw])]
    · by_cases hw' : ws.name = n'
      · simp only [List.map_cons, if_pos hw']
        rw [List.find?_cons_of_neg _ (by simp [hg, hw]), List.find?_cons_of_neg _ (by simp [hw])]
        exact ih
      · simp only [List.map_cons, if_neg hw']
        rw [List.find?_cons_of_neg _ (by simp [hw]), List.find?_cons_of_neg _ (by simp [hw])]
        exact ih

theorem hasSheet_updateCellState (f : WFile) (n' addr : String) (g : CellState → CellState)
    (n : String) : hasSheet (updateCellState f n' addr g) n = hasSheet f n :=
  hasSheet_updateSheetByName f n'
    (fun ws => { ws with cells := mapUpdate {} ws.cells addr g }) (fun _ => rfl) n

/-- The content a typed cell value dispatches to (the right-hand sides of
the type switch of `recreateCells`). -/
def dispatchContent : CellValue → CellContent
  | .vFloat32 v => .floatCell v
  | .vFloat64 v => .floatCell v
  | .vInt n => .intCell n
  | .vInt8 n => .intCell n
  | .vInt16 n => .intCell n
  | .vInt32 n => .intCell n
  | .vBool b => .boolCell b
  | .vTime t => .timeCell t
  | .vOther text =>
    match parseGoFloat text with
    | some q => .floatCell q
    | none => .strCell text

/-- The cell state the per-cell loop body produces at a previously absent
address, for a cell that writes a formula or a value. -/
def cellResult (o : Options) (smap : List (Int × Nat)) (c : CellMetadata) : CellState :=
  { value := if c.formula ≠ "" ∧ o.preserveFormulas = true then none
      else c.value.map dispatchContent
    formula := if c.formula ≠ "" ∧ o.preserveFormulas = true then some c.formula else none
    styleID := if o.preserveStyles = true ∧ c.styleID ≠ 0 then alookup smap c.styleID else none
    hyperlink := c.hyperlink.map (fun hl => (hl.link, "Location")) }

theorem hasSheet_setCellByValue (f : WFile) (n addr : String) (v : CellValue) (nm : String) :
    hasSheet (setCellByValue f n addr v) nm = hasSheet f nm := by
  cases v <;>
    first
    | exact hasSheet_updateCellState ..
    | · simp only [setCellByValue]
        split <;> exact hasSheet_updateCellState ..

/-- Writing a value at an absent address leaves exactly the dispatched
content there. -/
theorem cellAt_setCellByValue_self (f : WFile) (n addr : String) (v : CellValue)
    (hs : hasSheet f n = true) (h0 : cellAt f n addr = none) :
    cellAt (setCellByValue f n addr v) n addr =
      some { value := some (dispatchContent v) } := by
  cases v with
  | vFloat32 q =>
    have hu := cellAt_updateCellState_self f n addr
      (fun cs => { cs with value := some (.floatCell q) }) hs
    rw [h0] at hu
    exact hu
  | vFloat64 q =>
    have hu := cellAt_updateCellState_self f n addr
      (fun cs => { cs with value := some (.floatCell q) }) hs
    rw [h0] at hu
    exact hu
  | vInt i =>
    have hu := cellAt_updateCellState_self f n addr
      (fun cs => { cs with value := some (.intCell i) }) hs
    rw [h0] at hu
    exact hu
  | vInt8 i =>
    have hu := cellAt_updateCellState_self f n addr
      (fun cs => { cs with value := some (.intCell i) }) hs
    rw [h0] at hu
    exact hu
  | vInt16 i =>
    have hu := cellAt_updateCellState_self f n addr
      (fun cs => { cs with value := some (.intCell i) }) hs
    rw [h0] at hu
    exact hu
  | vInt32 i =>
    have hu := cellAt_updateCellState_self f n addr
      (fun cs => { cs with value := some (.intCell i) }) hs
    rw [h0] at hu
    exact hu
  | vBool b =>
    have hu := cellAt_updateCellState_self f n addr
      (fun cs => { cs with value := some (.boolCell b) }) hs
    rw [h0] at hu
    exact hu
  | vTime t =>
    have hu := cellAt_updateCellState_self f n addr
      (fun cs => { cs with value := some (.timeCell t) }) hs
    rw [h0] at hu
    exact hu
  | vOther s =>
    simp only [setCellByValue, dispatchContent]
    rcases hp : parseGoFloat s with _ | q
    · have hu := cellAt_updateCellState_self f n addr
        (fun cs => { cs with value := some (.strCell s) }) hs
      rw [h0] at hu
      exact hu
    · have hu := cellAt_updateCellState_self f n addr
        (fun cs => { cs with value := some (.floatCell q) }) hs
      rw [h0] at hu
      exact hu

/-- Stage 1 of the loop body (formula write or typed-value dispatch). -/
theorem applyCell_stage1 (o : Options) (n : String) (c : CellMetadata) (f : WFile)
    (hs : hasSheet f n = true) (h0 : cellAt f n c.address = none) :
    cellAt (if c.formula ≠ "" ∧ o.preserveFormulas = true then
        setCellFormula f n c.address c.formula
      else match c.value with
        | some v => setCellByValue f n c.address v
        | none => f) n c.address =
      (if c.formula ≠ "" ∧ o.preserveFormulas = true then
        some { formula := some c.formula }
      else c.value.map (fun v => ({ value := some (dispatchContent v) } : CellState))) ∧
    hasSheet (if c.formula ≠ "" ∧ o.preserveFormulas = true then
        setCellFormula f n c.address c.formula
      else match c.value with
        | some v => setCellByValue f n c.address v
        | none => f) n = true := by
  split
  · constructor
    · have hu := cellAt_updateCellState_self f n c.address
        (fun cs => { cs with formula := some c.formula }) hs
      rw [h0] at hu
      exact hu
    · exact (hasSheet_updateCellState f n c.address
        (fun cs => { cs with formula := some c.formula }) n).trans hs
  · rcases hv : c.value with _ | v
    · exact ⟨by simpa using h0, hs⟩
    · refine ⟨?_, (hasSheet_setCellByValue f n c.address v n).trans hs⟩
      simp only [Option.map_some']
      exact cellAt_setCellByValue_self f n c.address v hs h0

/-- Stage 2 of the loop body (style remap application). -/
theorem applyCell_stage2 (o : Options) (smap : List (Int × Nat)) (n : String)
    (c : CellMetadata) (f : WFile) (r : Option CellState)
    (hs : hasSheet f n = true) (hr : cellAt f n c.address = r) :
    cellAt (if o.preserveStyles = true ∧ c.styleID ≠ 0 then
        match alookup smap c.styleID with
        | some newStyleID => setCellStyle f n c.address c.address newStyleID
        | none => f
      else f) n c.address =
      (if o.preserveStyles = true ∧ c.styleID ≠ 0 then
        match alookup smap c.styleID with
        | some newStyleID => some { r.getD {} with styleID := some newStyleID }
        | none => r
      else r) ∧
    hasSheet (if o.preserveStyles = true ∧ c.styleID ≠ 0 then
        match alookup smap c.styleID with
        | some newStyleID => setCellStyle f n c.address c.address newStyleID
        | none => f
      else f) n = true := by
  split
  · rcases hl : alookup smap c.styleID with _ | nid
    · exact ⟨hr, hs⟩
    · constructor
      · have hu := cellAt_updateCellState_self f n c.address
          (fun cs => { cs with styleID := some nid }) hs
        rw [hr] at hu
        exact hu
      · exact (hasSheet_updateCellState f n c.address
          (fun cs => { cs with styleID := some nid }) n).trans hs
  · exact ⟨hr, hs⟩

/-- Stage 3 of the loop body (hyperlink application). -/
theorem applyCell_stage3 (n : String) (c : CellMetadata) (f : WFile) (r : Option CellState)
    (hs : hasSheet f n = true) (hr : cellAt f n c.address = r) :
    cellAt (match c.hyperlink with
      | some h => setCellHyperLink f n c.address h.link "Location"
      | none => f) n c.address =
      (match c.hyperlink with
      | some h => some { r.getD {} with hyperlink := some (h.link, "Location") }
      | none => r) := by
  rcases hh : c.hyperlink with _ | hl
  · exact hr
  · have hu := cellAt_updateCellState_self f n c.address
      (fun cs => { cs with hyperlink := some (hl.link, "Location") }) hs
    rw [hr] at hu
    exact hu

/-- The loop body of `recreateCells`, at a previously absent address, for a
cell carrying a formula (with formula preservation on) or a value: the
resulting cell state is exactly `cellResult`. -/
theorem cellAt_applyCell_core (o : Options) (smap : List (Int × Nat)) (n : String)
    (f : WFile) (c : CellMetadata) (hs : hasSheet f n = true)
    (h0 : cellAt f n c.address = none)
    (hwrite : (c.formula ≠ "" ∧ o.preserveFormulas = true) ∨ c.value.isSome = true) :
    cellAt (applyCell o smap n f c) n c.address = some (cellResult o smap c) := by
  have hns : ¬(o.skipEmptyCells = true ∧ c.value = none ∧ c.formula = "") := by
    rcases hwrite with ⟨hf, _⟩ | hv
    · rintro ⟨_, _, hfe⟩
      exact hf hfe
    · rintro ⟨_, hvn, _⟩
      rw [hvn] at hv
      simp at hv
  unfold applyCell
  rw [if_neg hns]
  obtain ⟨h1c, h1s⟩ := applyCell_stage1 o n c f hs h0
  obtain ⟨h2c, h2s⟩ := applyCell_stage2 o smap n c _ _ h1s h1c
  have h3c := applyCell_stage3 n c _ _ h2s h2c
  rw [h3c]
  have hr1 : (if c.formula ≠ "" ∧ o.preserveFormulas = true then
        some ({ formula := some c.formula } : CellState)
      else c.value.map (fun v => ({ value := some (dispatchContent v) } : CellState))) =
      some { value := if c.formula ≠ "" ∧ o.preserveFormulas = true then none
               else c.value.map dispatchContent,
             formula := if c.formula ≠ "" ∧ o.preserveFormulas = true then some c.formula
               else none } := by
    by_cases hfp : c.formula ≠ "" ∧ o.preserveFormulas = true
    · simp [hfp]
    · rcases hwrite with ⟨hf, hp⟩ | hv
      · exact absurd ⟨hf, hp⟩ hfp
      · rcases hv' : c.value with _ | v
        · rw [hv'] at hv
          simp at hv
        · simp [hfp, hv']
  rw [hr1]
  by_cases hst : o.preserveStyles = true ∧ c.styleID ≠ 0
  · rcases hl : alookup smap c.styleID with _ | nid <;>
      rcases hh : c.hyperlink with _ | hlk <;>
        simp [cellResult, hst, hl, hh]
  · rcases hh : c.hyperlink with _ | hlk <;> simp [cellResult, hst, hh]

/-- A skip-eligible cell is skipped entirely: the loop body is the
identity on the workbook. -/
theorem applyCell_skip (o : Options) (smap : List (Int × Nat)) (n : String)
    (f : WFile) (c : CellMetadata)
    (h : o.skipEmptyCells = true ∧ c.value = none ∧ c.formula = "") :
    applyCell o smap n f c = f := by
  unfold applyCell
  rw [if_pos h]

theorem cellAt_setCellByValue_other (f : WFile) (n addr a : String) (v : CellValue)
    (hne : addr ≠ a) : cellAt (setCellByValue f n addr v) n a = cellAt f n a := by
  cases v <;>
    first
    | exact cellAt_updateCellState_other f n addr a _ hne
    | · simp only [setCellByValue]
        split <;> exact cellAt_updateCellState_other f n addr a _ hne

/-- The loop body never touches a different address of the sheet. -/
theorem cellAt_applyCell_other (o : Options) (smap : List (Int × Nat)) (n : String)
    (f : WFile) (c : CellMetadata) (a : String) (hne : c.address ≠ a) :
    cellAt (applyCell o smap n f c) n a = cellAt f n a := by
  unfold applyCell
  split
  · rfl
  · have h1 : ∀ f' : WFile, cellAt (if c.formula ≠ "" ∧ o.preserveFormulas = true then
        setCellFormula f' n c.address c.formula
      else match c.value with
        | some v => setCellByValue f' n c.address v
        | none => f') n a = cellAt f' n a := by
      intro f'
      split
      · exact cellAt_updateCellState_other f' n c.address a _ hne
      · split
        · exact cellAt_setCellByValue_other f' n c.address a _ hne
        · rfl
    have h2 : ∀ f' : WFile, cellAt (if o.preserveStyles = true ∧ c.styleID ≠ 0 then
        match alookup smap c.styleID with
        | some newStyleID => setCellStyle f' n c.address c.address newStyleID
        | none => f'
      else f') n a = cellAt f' n a := by
      intro f'
      split
      · split
        · exact cellAt_updateCellState_other f' n c.address a _ hne
        · rfl
      · rfl
    have h3 : ∀ f' : WFile, cellAt (match c.hyperlink with
        | some h => setCellHyperLink f' n c.address h.link "Location"
        | none => f') n a = cellAt f' n a := by
      intro f'
      split
      · exact cellAt_updateCellState_other f' n c.address a _ hne
      · rfl
    rw [h3, h2, h1]

theorem hasSheet_applyCell (o : Options) (smap : List (Int × Nat)) (n : String)
    (f : WFile) (c : CellMetadata) (nm : String) :
    hasSheet (applyCell o smap n f c) nm = hasSheet f nm := by
  unfold applyCell
  split
  · rfl
  · have h1 : ∀ f' : WFile, hasSheet (if c.formula ≠ "" ∧ o.preserveFormulas = true then
        setCellFormula f' n c.address c.formula
      else match c.value with
        | some v => setCellByValue f' n c.address v
        | none => f') nm = hasSheet f' nm := by
      intro f'
      split
      · exact hasSheet_updateCellState f' n c.address _ nm
      · split
        · exact hasSheet_setCellByValue f' n c.address _ nm
        · rfl
    have h2 : ∀ f' : WFile, hasSheet (if o.preserveStyles = true ∧ c.styleID ≠ 0 then
        match alookup smap c.styleID with
        | some newStyleID => setCellStyle f' n c.address c.address newStyleID
        | none => f'
      else f') nm = hasSheet f' nm := by
      intro f'
      split
      · split
        · exact hasSheet_updateCellState f' n c.address _ nm
        · rfl
      · rfl
    have h3 : ∀ f' : WFile, hasSheet (match c.hyperlink with
        | some h => setCellHyperLink f' n c.address h.link "Location"
        | none => f') nm = hasSheet f' nm := by
      intro f'
      split
      · exact hasSheet_updateCellState f' n c.address _ nm
      · rfl
    rw [h3, h2, h1]

theorem cellAt_foldl_applyCell_notin (o : Options) (smap : List (Int × Nat)) (n : String) :
    ∀ (l : List CellMetadata) (f : WFile) (a : String), (∀ c' ∈ l, c'.address ≠ a) →
      cellAt (List.foldl (applyCell o smap n) f l) n a = cellAt f n a := by
  intro l
  induction l with
  | nil => intro f a _; rfl
  | cons c t ih =>
    intro f a hl
    rw [List.foldl_cons, ih _ a (fun c' hc' => hl c' (List.mem_cons_of_mem c hc')),
      cellAt_applyCell_other o smap n f c a (hl c (List.mem_cons_self c t))]

theorem hasSheet_foldl_applyCell (o : Options) (smap : List (Int × Nat)) (n : String) :
    ∀ (l : List CellMetadata) (f : WFile) (nm : String),
      hasSheet (List.foldl (applyCell o smap n) f l) nm = hasSheet f nm := by
  intro l
  induction l with
  | nil => intro f nm; rfl
  | cons c t ih =>
    intro f nm
    rw [List.foldl_cons, ih _ nm, hasSheet_applyCell]

/-- `recreateCells` on a cell list in which the address of `c` occurs only
at `c` itself, started on a sheet with no cell at that address: the final
cell state at that address is exactly `cellResult`. -/
theorem cellAt_recreateCells_at (o : Options) (smap : List (Int × Nat)) (n : String)
    (l1 l2 : List CellMetadata) (c : CellMetadata) (f : WFile)
    (h1 : ∀ c' ∈ l1, c'.address ≠ c.address) (h2 : ∀ c' ∈ l2, c'.address ≠ c.address)
    (hs : hasSheet f n = true) (h0 : cellAt f n c.address = none)
    (hwrite : (c.formula ≠ "" ∧ o.preserveFormulas = true) ∨ c.value.isSome = true) :
    cellAt (recreateCells o smap n f (l1 ++ c :: l2)) n c.address =
      some (cellResult o smap c) := by
  show cellAt (List.foldl (applyCell o smap n) f (l1 ++ c :: l2)) n c.address = _
  rw [List.foldl_append, List.foldl_cons]
  have hs1 : hasSheet (List.foldl (applyCell o smap n) f l1) n = true :=
    (hasSheet_foldl_applyCell o smap n l1 f n).trans hs
  have h01 : cellAt (List.foldl (applyCell o smap n) f l1) n c.address = none :=
    (cellAt_foldl_applyCell_notin o smap n l1 f c.address h1).trans h0
  have hc := cellAt_applyCell_core o smap n _ c hs1 h01 hwrite
  exact (cellAt_foldl_applyCell_notin o smap n l2 _ c.address h2).trans hc

/-! ## Further fixtures for the per-cell claims -/

/-- A value/formula-only cell with no style and no hyperlink. -/
def cellOf (addr : String) (v : Option CellValue) (fml : String) : CellMetadata :=
  { address := addr, value := v, formula := fml, styleID := 0, hyperlink := none }

/-- A cell carrying a generic string value and a style reference. -/
def cellSt (addr : String) (sid : Int) : CellMetadata :=
  { address := addr, value := some (.vOther "x"), formula := "", styleID := sid,
    hyperlink := none }

/-- A style-details record with every sub-record absent. -/
def plainStyleMeta : StyleMeta :=
  { font := none, fill := none, border := [], alignment := none, numberFormat := 0,
    protection := none }

/-- A collaborator that rejects every style descriptor. -/
def rejectAll : EngineStyle → Bool := fun _ => true

/-- A second style-details record, distinguishable from `plainStyleMeta`
by its number format. -/
def numStyleMeta : StyleMeta :=
  { font := none, fill := none, border := [], alignment := none, numberFormat := 3,
    protection := none }

/-- A visible sheet with two styled cells. -/
def styledSheet : SheetMetadata :=
  { index := 0, name := "S", visible := true, colWidths := [], rowHeights := [],
    cells := [cellSt "A1" 5, cellSt "B1" 7], mergedCells := [], dataValidations := [],
    protection := none }

/-- A metadata document with one styled sheet and two styles. -/
def mC3 : Metadata :=
  { properties := emptyProps, sheets := [styledSheet],
    styles := [(5, plainStyleMeta), (7, numStyleMeta)], definedNames := [] }

/-- The same styles map, iterated in the opposite order. -/
def l2C3 : List (Int × StyleMeta) := [(7, numStyleMeta), (5, plainStyleMeta)]

/-- C5: for a cell with a non-empty formula processed under
`preserveFormulas = true` (its address occurring nowhere else in the list,
previously absent from the sheet), the output cell's formula equals the
input formula and no value is written for it, whatever input value it
carried. -/
theorem recreateCells_formula_precedence (o : Options) (smap : List (Int × Nat))
    (n : String) (l1 l2 : List CellMetadata) (c : CellMetadata) (f : WFile)
    (hpf : o.preserveFormulas = true) (hf : c.formula ≠ "")
    (h1 : ∀ c' ∈ l1, c'.address ≠ c.address) (h2 : ∀ c' ∈ l2, c'.address ≠ c.address)
    (hs : hasSheet f n = true) (h0 : cellAt f n c.address = none) :
    (cellAt (recreateCells o smap n f (l1 ++ c :: l2)) n c.address).map
        (fun cs => (cs.formula, cs.value)) = some (some c.formula, none) := by
  rw [cellAt_recreateCells_at o smap n l1 l2 c f h1 h2 hs h0 (Or.inl ⟨hf, hpf⟩)]
  simp [cellResult, hf, hpf]

/-- Witness for C5: a cell at `B4` carrying both a textual value and the
formula `SUM(B2:B3)` comes out with exactly the formula and no value. -/
theorem recreateCells_formula_precedence_witness :
    hasSheet newFile "Sheet1" = true ∧
    (cellAt (recreateCells DefaultOptions [] "Sheet1" newFile
        ([] ++ cellOf "B4" (some (.vOther "7")) "SUM(B2:B3)" :: [])) "Sheet1"
        (cellOf "B4" (some (.vOther "7")) "SUM(B2:B3)").address).map
        (fun cs => (cs.formula, cs.value)) =
      some (some (cellOf "B4" (some (.vOther "7")) "SUM(B2:B3)").formula, none) :=
  ⟨by decide,
    recreateCells_formula_precedence DefaultOptions [] "Sheet1" [] []
      (cellOf "B4" (some (.vOther "7")) "SUM(B2:B3)") newFile (by decide) (by decide)
      (by decide) (by decide) (by decide) (by decide)⟩

/-- C6: with `skipEmptyCells = true`, an address at which every cell of
the list has neither value nor formula stays entirely absent from the
output sheet: no value, formula, style or hyperlink is recorded there. -/
theorem recreateCells_skip_empty (o : Options) (smap : List (Int × Nat)) (n : String)
    (hskip : o.skipEmptyCells = true) :
    ∀ (cells : List CellMetadata) (f : WFile) (a : String),
      (∀ c' ∈ cells, c'.address = a → (c'.value = none ∧ c'.formula = "")) →
      cellAt f n a = none →
      cellAt (recreateCells o smap n f cells) n a = none := by
  intro cells
  induction cells with
  | nil => intro f a _ h0; exact h0
  | cons c t ih =>
    intro f a hall h0
    show cellAt (List.foldl (applyCell o smap n) f (c :: t)) n a = none
    rw [List.foldl_cons]
    by_cases hca : c.address = a
    · obtain ⟨hv, hf⟩ := hall c (List.mem_cons_self c t) hca
      rw [applyCell_skip o smap n f c ⟨hskip, hv, hf⟩]
      exact ih f a (fun c' hc' => hall c' (List.mem_cons_of_mem c hc')) h0
    · exact ih _ a (fun c' hc' => hall c' (List.mem_cons_of_mem c hc'))
        ((cellAt_applyCell_other o smap n f c a hca).trans h0)

/-- Witness for C6: an empty `B3` cell between two contentful cells leaves
no trace at `B3`. -/
theorem recreateCells_skip_empty_witness :
    cellAt newFile "Sheet1" "B3" = none ∧
    cellAt (recreateCells DefaultOptions [] "Sheet1" newFile
        [cellOf "B2" (some (.vOther "1000.50")) "", cellOf "B3" none "",
          cellOf "B4" none "SUM(B2:B3)"]) "Sheet1" "B3" = none :=
  ⟨by decide,
    recreateCells_skip_empty DefaultOptions [] "Sheet1" (by decide)
      [cellOf "B2" (some (.vOther "1000.50")) "", cellOf "B3" none "",
        cellOf "B4" none "SUM(B2:B3)"] newFile "B3" (by decide) (by decide)⟩

/-- C7: a cell with a value of unrecognized kind (carried as its textual
form) and no formula is coerced: if the text parses as a decimal
floating-point number the output cell is numeric with that value,
otherwise it is the literal string. -/
theorem recreateCells_string_coercion (o : Options) (smap : List (Int × Nat))
    (n : String) (l1 l2 : List CellMetadata) (c : CellMetadata) (f : WFile) (s : String)
    (hv : c.value = some (.vOther s)) (hf : c.formula = "")
    (h1 : ∀ c' ∈ l1, c'.address ≠ c.address) (h2 : ∀ c' ∈ l2, c'.address ≠ c.address)
    (hs : hasSheet f n = true) (h0 : cellAt f n c.address = none) :
    (cellAt (recreateCells o smap n f (l1 ++ c :: l2)) n c.address).bind
        (fun cs => cs.value) =
      some (match parseGoFloat s with
        | some q => CellContent.floatCell q
        | none => CellContent.strCell s) := by
  rw [cellAt_recreateCells_at o smap n l1 l2 c f h1 h2 hs h0 (Or.inr (by rw [hv]; rfl))]
  simp [cellResult, hf, hv, dispatchContent]

/-- Witness for C7: the text `42.5` becomes the number 42.5 (85/2), not a
string. -/
theorem recreateCells_string_coercion_witness :
    parseGoFloat "42.5" = some (mkRat 85 2) ∧
    (cellAt (recreateCells DefaultOptions [] "Sheet1" newFile
        ([] ++ cellOf "A1" (some (.vOther "42.5")) "" :: [])) "Sheet1"
        (cellOf "A1" (some (.vOther "42.5")) "").address).bind (fun cs => cs.value) =
      some (match parseGoFloat "42.5" with
        | some q => CellContent.floatCell q
        | none => CellContent.strCell "42.5") :=
  ⟨by decide,
    recreateCells_string_coercion DefaultOptions [] "Sheet1" [] []
      (cellOf "A1" (some (.vOther "42.5")) "") newFile "42.5" (by decide) (by decide)
      (by decide) (by decide) (by decide) (by decide)⟩

/-- C8: typed-value dispatch for a formula-free cell: float kinds are
written as the same number (no precision loss in the model's exact
values), integer kinds as the same integer, booleans as booleans, and a
timestamp via the collaborator's native date representation carrying the
unchanged instant (no timezone conversion). -/
theorem recreateCells_typed_dispatch (o : Options) (smap : List (Int × Nat))
    (n : String) (l1 l2 : List CellMetadata) (c : CellMetadata) (f : WFile)
    (hf : c.formula = "")
    (h1 : ∀ c' ∈ l1, c'.address ≠ c.address) (h2 : ∀ c' ∈ l2, c'.address ≠ c.address)
    (hs : hasSheet f n = true) (h0 : cellAt f n c.address = none) :
    (∀ q : ℚ, c.value = some (.vFloat64 q) →
      (cellAt (recreateCells o smap n f (l1 ++ c :: l2)) n c.address).bind
        (fun cs => cs.value) = some (.floatCell q)) ∧
    (∀ q : ℚ, c.value = some (.vFloat32 q) →
      (cellAt (recreateCells o smap n f (l1 ++ c :: l2)) n c.address).bind
        (fun cs => cs.value) = some (.floatCell q)) ∧
    (∀ i : ℤ, c.value = some (.vInt i) →
      (cellAt (recreateCells o smap n f (l1 ++ c :: l2)) n c.address).bind
        (fun cs => cs.value) = some (.intCell i)) ∧
    (∀ i : ℤ, c.value = some (.vInt8 i) →
      (cellAt (recreateCells o smap n f (l1 ++ c :: l2)) n c.address).bind
        (fun cs => cs.value) = some (.intCell i)) ∧
    (∀ i : ℤ, c.value = some (.vInt16 i) →
      (cellAt (recreateCells o smap n f (l1 ++ c :: l2)) n c.address).bind
        (fun cs => cs.value) = some (.intCell i)) ∧
    (∀ i : ℤ, c.value = some (.vInt32 i) →
      (cellAt (recreateCells o smap n f (l1 ++ c :: l2)) n c.address).bind
        (fun cs => cs.value) = some (.intCell i)) ∧
    (∀ b : Bool, c.value = some (.vBool b) →
      (cellAt (recreateCells o smap n f (l1 ++ c :: l2)) n c.address).bind
        (fun cs => cs.value) = some (.boolCell b)) ∧
    (∀ t : ℤ, c.value = some (.vTime t) →
      (cellAt (recreateCells o smap n f (l1 ++ c :: l2)) n c.address).bind
        (fun cs => cs.value) = some (.timeCell t)) := by
  have key : ∀ v : CellValue, c.value = some v →
      (cellAt (recreateCells o smap n f (l1 ++ c :: l2)) n c.address).bind
        (fun cs => cs.value) = some (dispatchContent v) := by
    intro v hv
    rw [cellAt_recreateCells_at o smap n l1 l2 c f h1 h2 hs h0 (Or.inr (by rw [hv]; rfl))]
    simp [cellResult, hf, hv]
  exact ⟨fun q hq => by simpa [dispatchContent] using key _ hq,
    fun q hq => by simpa [dispatchContent] using key _ hq,
    fun i hi => by simpa [dispatchContent] using key _ hi,
    fun i hi => by simpa [dispatchContent] using key _ hi,
    fun i hi => by simpa [dispatchContent] using key _ hi,
    fun i hi => by simpa [dispatchContent] using key _ hi,
    fun b hb => by simpa [dispatchContent] using key _ hb,
    fun t ht => by simpa [dispatchContent] using key _ ht⟩

/-- Witness for C8 at a float64-kind cell holding 1000.50. -/
theorem recreateCells_typed_dispatch_witness :
    (cellOf "B2" (some (.vFloat64 (mkRat 2001 2))) "").value =
      some (.vFloat64 (mkRat 2001 2)) ∧
    (cellAt (recreateCells DefaultOptions [] "Sheet1" newFile
        ([] ++ cellOf "B2" (some (.vFloat64 (mkRat 2001 2))) "" :: [])) "Sheet1"
        (cellOf "B2" (some (.vFloat64 (mkRat 2001 2))) "").address).bind
        (fun cs => cs.value) = some (.floatCell (mkRat 2001 2)) :=
  ⟨by decide,
    (recreateCells_typed_dispatch DefaultOptions [] "Sheet1" [] []
      (cellOf "B2" (some (.vFloat64 (mkRat 2001 2))) "") newFile (by decide) (by decide)
      (by decide) (by decide) (by decide)).1 (mkRat 2001 2) (by decide)⟩

theorem recreateStyles_smap_not_mem (reject : EngineStyle → Bool) (k : Int) :
    ∀ (l : List (Int × StyleMeta)) (f : WFile) (smap : List (Int × Nat)),
      k ∉ l.map Prod.fst →
      alookup (recreateStyles reject l f smap).2 k = alookup smap k := by
  intro l
  induction l with
  | nil => intro f smap _; rfl
  | cons e t ih =>
    intro f smap hk
    obtain ⟨k', sm'⟩ := e
    have hk' : k' ≠ k := by
      intro hkk
      exact hk (by simp [hkk])
    have hkt : k ∉ t.map Prod.fst := fun hmem => hk (by simp [hmem])
    simp only [recreateStyles, newStyle]
    by_cases hr : reject (buildStyle sm') = true
    · rw [if_pos hr]
      exact ih f smap hkt
    · rw [if_neg hr]
      rw [ih _ _ hkt]
      exact alookup_mapInsert_ne smap k' k _ hk'

theorem recreateStyles_smap_rejected (reject : EngineStyle → Bool) (k : Int)
    (sm : StyleMeta) :
    ∀ (l : List (Int × StyleMeta)) (f : WFile) (smap : List (Int × Nat)),
      (l.map Prod.fst).Nodup → (k, sm) ∈ l → reject (buildStyle sm) = true →
      alookup smap k = none →
      alookup (recreateStyles reject l f smap).2 k = none := by
  intro l
  induction l with
  | nil => intro f smap _ hmem _ _; simp at hmem
  | cons e t ih =>
    intro f smap hnd hmem hrej hsm
    obtain ⟨k', sm'⟩ := e
    simp only [List.map_cons, List.nodup_cons] at hnd
    obtain ⟨hknotin, hndt⟩ := hnd
    simp only [recreateStyles, newStyle]
    rcases List.mem_cons.mp hmem with heq | hmem'
    · obtain ⟨hk, hsmeq⟩ : k = k' ∧ sm = sm' := by simpa using heq
      subst hk
      subst hsmeq
      rw [if_pos hrej]
      exact (recreateStyles_smap_not_mem reject k t f smap hknotin).trans hsm
    · have hkk : k' ≠ k := fun h => hknotin (h ▸ List.mem_map_of_mem Prod.fst hmem')
      by_cases hr : reject (buildStyle sm') = true
      · rw [if_pos hr]
        exact ih f smap hndt hmem' hrej hsm
      · rw [if_neg hr]
        exact ih _ _ hndt hmem' hrej ((alookup_mapInsert_ne smap k' k _ hkk).trans hsm)

/-- `recreateStyles` leaves the sheet list untouched. -/
theorem recreateStyles_sheets (reject : EngineStyle → Bool) :
    ∀ (l : List (Int × StyleMeta)) (f : WFile) (smap : List (Int × Nat)),
      (recreateStyles reject l f smap).1.sheets = f.sheets := by
  intro l
  induction l with
  | nil => intro f smap; rfl
  | cons e t ih =>
    intro f smap
    obtain ⟨oldID, smeta⟩ := e
    simp only [recreateStyles, newStyle]
    by_cases hr : reject (buildStyle smeta) = true
    · rw [if_pos hr]
      exact ih f smap
    · rw [if_neg hr]
      exact ih { f with styles := f.styles ++ [buildStyle smeta] }
        (mapInsert smap oldID f.styles.length)

/-- Two workbooks with the same sheet-name list agree on every existence
check. -/
theorem sheetExists_eq_of_names {f1 f2 : WFile}
    (hn : sheetNames f1 = sheetNames f2) (nm : String) :
    sheetExists f1 nm = sheetExists f2 nm := by
  unfold sheetExists
  have e1 : ∀ (f : WFile), f.sheets.any (fun ws => ws.name = nm) =
      (sheetNames f).any (fun x => x = nm) := by
    intro f
    rw [sheetNames]
    induction f.sheets with
    | nil => rfl
    | cons ws t ih => simp only [List.map_cons, List.any_cons, ih]
  rw [e1 f1, e1 f2, hn]

/-- Run the per-sheet loop in two workbooks with the same sheet-name list
(possibly different remap tables): both runs fail, or both succeed —
creation failures depend on names only. -/
theorem recreateSheetsLoop_names_cases (o : Options) (smap1 smap2 : List (Int × Nat)) :
    ∀ (l : List SheetMetadata) (f1 f2 : WFile), sheetNames f1 = sheetNames f2 →
      (∃ e1 e2, recreateSheetsLoop o smap1 f1 l = .error e1 ∧
        recreateSheetsLoop o smap2 f2 l = .error e2) ∨
      (∃ g1 g2, recreateSheetsLoop o smap1 f1 l = .ok g1 ∧
        recreateSheetsLoop o smap2 f2 l = .ok g2) := by
  intro l
  induction l with
  | nil =>
    intro f1 f2 _
    exact Or.inr ⟨f1, f2, rfl, rfl⟩
  | cons sm t ih =>
    intro f1 f2 hn
    have hse := sheetExists_eq_of_names hn (resolvedSheetName o sm)
    simp only [recreateSheetsLoop, recreateSheet, newSheet]
    by_cases he : sheetExists f1 (resolvedSheetName o sm) = true
    · rw [if_pos he, if_pos (hse ▸ he)]
      exact Or.inl ⟨_, _, rfl, rfl⟩
    · rw [if_neg he, if_neg (hse ▸ he)]
      apply ih
      have hb1 := frame_sheetBody o smap1 (resolvedSheetName o sm) sm
        { f1 with sheets := f1.sheets ++ [{ name := resolvedSheetName o sm }] }
      have hb2 := frame_sheetBody o smap2 (resolvedSheetName o sm) sm
        { f2 with sheets := f2.sheets ++ [{ name := resolvedSheetName o sm }] }
      simp only [frame, Prod.mk.injEq] at hb1 hb2
      rw [hb1.1, hb2.1]
      simp only [sheetNames, List.map_append, List.map_cons, List.map_nil]
      rw [show List.map (fun ws => ws.name) f1.sheets =
        List.map (fun ws => ws.name) f2.sheets from hn]

/-- Whether a full run succeeds does not depend on which styles the
collaborator rejects: a registration failure is never fatal. -/
theorem recreate_isOk_eq (rj1 rj2 : EngineStyle → Bool) (m : Metadata) (o : Options) :
    (recreate rj1 m o).isOk = (recreate rj2 m o).isOk := by
  simp only [recreate]
  have hsheets : ∀ (rj : EngineStyle → Bool),
      (if o.preserveStyles = true ∧ m.styles.length > 0 then
        recreateStyles rj m.styles (recreateDocumentProperties m newFile) []
      else (recreateDocumentProperties m newFile, [])).1.sheets = newFile.sheets := by
    intro rj
    split
    · exact recreateStyles_sheets rj m.styles (recreateDocumentProperties m newFile) []
    · rfl
  have hS : (if o.preserveStyles = true ∧ m.styles.length > 0 then
        recreateStyles rj1 m.styles (recreateDocumentProperties m newFile) []
      else (recreateDocumentProperties m newFile, [])).1.sheets =
      (if o.preserveStyles = true ∧ m.styles.length > 0 then
        recreateStyles rj2 m.styles (recreateDocumentProperties m newFile) []
      else (recreateDocumentProperties m newFile, [])).1.sheets :=
    (hsheets rj1).trans (hsheets rj2).symm
  have hln : sheetNames (if m.sheets.length > 0 then
        deleteSheet (if o.preserveStyles = true ∧ m.styles.length > 0 then
          recreateStyles rj1 m.styles (recreateDocumentProperties m newFile) []
        else (recreateDocumentProperties m newFile, [])).1 "Sheet1"
      else (if o.preserveStyles = true ∧ m.styles.length > 0 then
          recreateStyles rj1 m.styles (recreateDocumentProperties m newFile) []
        else (recreateDocumentProperties m newFile, [])).1) =
      sheetNames (if m.sheets.length > 0 then
        deleteSheet (if o.preserveStyles = true ∧ m.styles.length > 0 then
          recreateStyles rj2 m.styles (recreateDocumentProperties m newFile) []
        else (recreateDocumentProperties m newFile, [])).1 "Sheet1"
      else (if o.preserveStyles = true ∧ m.styles.length > 0 then
          recreateStyles rj2 m.styles (recreateDocumentProperties m newFile) []
        else (recreateDocumentProperties m newFile, [])).1) := by
    by_cases hms : m.sheets.length > 0
    · rw [if_pos hms, if_pos hms]
      exact congrArg (fun A => sheetNames (deleteSheet { newFile with sheets := A } "Sheet1")) hS
    · rw [if_neg hms, if_neg hms]
      exact congrArg (fun A => A.map (fun ws => ws.name)) hS
  rcases recreateSheetsLoop_names_cases o
      (if o.preserveStyles = true ∧ m.styles.length > 0 then
        recreateStyles rj1 m.styles (recreateDocumentProperties m newFile) []
      else (recreateDocumentProperties m newFile, [])).2
      (if o.preserveStyles = true ∧ m.styles.length > 0 then
        recreateStyles rj2 m.styles (recreateDocumentProperties m newFile) []
      else (recreateDocumentProperties m newFile, [])).2
      m.sheets _ _ hln with ⟨e1, e2, he1, he2⟩ | ⟨g1, g2, hk1, hk2⟩
  · rw [he1, he2]
    rfl
  · rw [hk1, hk2]
    rfl

/-- C9: a style the collaborator rejects is simply omitted from the remap
table built by `recreateStyles` (the pass itself never fails); a cell whose
style identifier is absent from the remap table is written with no style at
all; a cell whose non-zero style identifier is present in the remap
table, with style preservation on, carries the remapped (new) identifier,
not the original; and the run continues — whether the full `recreate`
succeeds is independent of which styles the collaborator rejects. -/
theorem style_rejection_nonfatal_remap (reject : EngineStyle → Bool) :
    (∀ (l : List (Int × StyleMeta)) (f : WFile) (k : Int) (sm : StyleMeta),
      (l.map Prod.fst).Nodup → (k, sm) ∈ l → reject (buildStyle sm) = true →
      alookup (recreateStyles reject l f []).2 k = none) ∧
    (∀ (o : Options) (smap : List (Int × Nat)) (n : String) (f : WFile) (c : CellMetadata),
      alookup smap c.styleID = none → hasSheet f n = true →
      cellAt f n c.address = none → c.value.isSome = true →
      (cellAt (applyCell o smap n f c) n c.address).bind (fun cs => cs.styleID) = none) ∧
    (∀ (o : Options) (smap : List (Int × Nat)) (n : String) (f : WFile) (c : CellMetadata)
      (nid : Nat),
      o.preserveStyles = true → c.styleID ≠ 0 → alookup smap c.styleID = some nid →
      hasSheet f n = true → cellAt f n c.address = none → c.value.isSome = true →
      (cellAt (applyCell o smap n f c) n c.address).bind (fun cs => cs.styleID) =
        some nid) ∧
    (∀ (reject2 : EngineStyle → Bool) (m : Metadata) (o : Options),
      (recreate reject m o).isOk = (recreate reject2 m o).isOk) := by
  refine ⟨?_, ?_, ?_, ?_⟩
  · intro l f k sm hnd hmem hrej
    exact recreateStyles_smap_rejected reject k sm l f [] hnd hmem hrej rfl
  · intro o smap n f c hlook hs h0 hv
    rw [cellAt_applyCell_core o smap n f c hs h0 (Or.inr hv)]
    simp [cellResult, hlook]
  · intro o smap n f c nid hps hnz hlook hs h0 hv
    rw [cellAt_applyCell_core o smap n f c hs h0 (Or.inr hv)]
    simp [cellResult, hps, hnz, hlook]
  · intro reject2 m o
    exact recreate_isOk_eq reject reject2 m o

/-- Witness for C9: a rejected style (old id 5) is missing from the remap
table; a cell pointing at the unmapped id 7 stays unstyled; with the remap
`7 ↦ 3` present, the same cell gets style 3, not 7; and a run rejecting
every style succeeds exactly when the run rejecting none does. -/
theorem style_rejection_nonfatal_remap_witness :
    alookup (recreateStyles rejectAll [(5, plainStyleMeta)] newFile []).2 5 = none ∧
    (cellAt (applyCell DefaultOptions [] "Sheet1" newFile (cellSt "A1" 7)) "Sheet1"
        (cellSt "A1" 7).address).bind (fun cs => cs.styleID) = none ∧
    (cellAt (applyCell DefaultOptions [(7, 3)] "Sheet1" newFile (cellSt "A1" 7)) "Sheet1"
        (cellSt "A1" 7).address).bind (fun cs => cs.styleID) = some 3 ∧
    (recreate rejectAll mC3 DefaultOptions).isOk =
      (recreate rejectNone mC3 DefaultOptions).isOk :=
  ⟨(style_rejection_nonfatal_remap rejectAll).1 [(5, plainStyleMeta)] newFile 5
      plainStyleMeta (by decide) (by decide) (by decide),
    (style_rejection_nonfatal_remap rejectAll).2.1 DefaultOptions [] "Sheet1" newFile
      (cellSt "A1" 7) (by decide) (by decide) (by decide) (by decide),
    (style_rejection_nonfatal_remap rejectAll).2.2.1 DefaultOptions [(7, 3)] "Sheet1" newFile
      (cellSt "A1" 7) 3 (by decide) (by decide) (by decide) (by decide) (by decide)
      (by decide),
    (style_rejection_nonfatal_remap rejectAll).2.2.2 rejectNone mC3 DefaultOptions⟩

/-! ## Observable structure of an output workbook

Two Go runs over the same metadata may iterate the styles map in different
orders; numeric style identifiers generated by the collaborator can then
differ while the style descriptor each cell ends up with does not.  The
observable projection keeps sheet names and order, every cell's contents,
and each cell's assigned style descriptor (the remapped identifier resolved
through the collaborator's style table), plus the active sheet, document
properties and defined names. -/

/-- The observable part of one cell: value, formula, resolved style
descriptor, hyperlink. -/
def obsCell (styles : List EngineStyle) (cs : CellState) :
    Option CellContent × Option String × Option EngineStyle × Option (String × String) :=
  (cs.value, cs.formula, cs.styleID.bind (fun i => styles[i]?), cs.hyperlink)

/-- The observable cell store of a sheet. -/
def cellsObs (styles : List EngineStyle) (cl : List (String × CellState)) :
    List (String × (Option CellContent × Option String × Option EngineStyle ×
      Option (String × String))) :=
  cl.map (fun p => (p.1, obsCell styles p.2))

/-- The observable part of one sheet. -/
def obsSheet (styles : List EngineStyle) (ws : WSheet) :
    String × Bool × List (String × ℚ) × List (Int × ℚ) ×
      List (String × (Option CellContent × Option String × Option EngineStyle ×
        Option (String × String))) ×
      List (String × String) × List EngineValidation × Option ProtectionOpts :=
  (ws.name, ws.visible, ws.colWidths, ws.rowHeights, cellsObs styles ws.cells,
    ws.merges, ws.validations, ws.protection)

/-- The observable part of a whole workbook. -/
def obsFile (f : WFile) :=
  (f.sheets.map (obsSheet f.styles), f.activeSheet, f.docProps, f.definedNames)

theorem alookup_not_mem {α β : Type} [DecidableEq α] :
    ∀ (l : List (α × β)) (k : α), k ∉ l.map Prod.fst → alookup l k = none := by
  intro l
  induction l with
  | nil => intro k _; rfl
  | cons e t ih =>
    intro k hk
    obtain ⟨k', v'⟩ := e
    have hk' : k' ≠ k := fun h => hk (by simp [h])
    simp only [alookup, if_neg hk']
    exact ih k (fun h => hk (by simp [h]))

/-- Association-list lookup only depends on the underlying map: it is
invariant under permutation when the keys are distinct. -/
theorem alookup_perm {α β : Type} [DecidableEq α] (l₁ l₂ : List (α × β))
    (hp : l₁.Perm l₂) (hnd : (l₁.map Prod.fst).Nodup) (k : α) :
    alookup l₁ k = alookup l₂ k := by
  induction hp with
  | nil => rfl
  | cons x t ih =>
    obtain ⟨k', v'⟩ := x
    simp only [List.map_cons, List.nodup_cons] at hnd
    by_cases hk : k' = k
    · simp [alookup, hk]
    · simp only [alookup, if_neg hk]
      exact ih hnd.2
  | swap x y t =>
    obtain ⟨kx, vx⟩ := x
    obtain ⟨ky, vy⟩ := y
    have hxy : ky ≠ kx := by
      intro h
      subst h
      simp [List.nodup_cons] at hnd
    by_cases hkx : kx = k
    · subst hkx
      simp [alookup, hxy]
    · by_cases hky : ky = k
      · subst hky
        simp [alookup, hkx]
      · simp [alookup, hkx, hky]
  | trans h₁ h₂ ih₁ ih₂ =>
    rename_i la lb lc
    have hndb : (lb.map Prod.fst).Nodup := (h₁.map Prod.fst).nodup_iff.mp hnd
    exact (ih₁ hnd).trans (ih₂ hndb)

/-- Characterization of the style pass: for every old identifier, looking
up the remap table and resolving through the final style table gives the
built descriptor of the styles-map entry (unless rejected), independent of
everything but the underlying map. -/
theorem recreateStyles_resolveM (reject : EngineStyle → Bool) :
    ∀ (l : List (Int × StyleMeta)) (f : WFile) (smap : List (Int × Nat)),
      (l.map Prod.fst).Nodup →
      (∀ k i, alookup smap k = some i → i < f.styles.length) →
      (∀ k, k ∈ l.map Prod.fst → alookup smap k = none) →
      ∀ k, (alookup (recreateStyles reject l f smap).2 k).map
          (fun i => (recreateStyles reject l f smap).1.styles[i]?) =
        match alookup l k with
        | some sm => if reject (buildStyle sm) then none else some (some (buildStyle sm))
        | none => (alookup smap k).map (fun i => f.styles[i]?) := by
  intro l
  induction l with
  | nil =>
    intro f smap _ _ _ k
    rfl
  | cons e t ih =>
    intro f smap hnd hbound hdisj k
    obtain ⟨k0, sm0⟩ := e
    simp only [List.map_cons, List.nodup_cons] at hnd
    obtain ⟨hk0notin, hndt⟩ := hnd
    simp only [recreateStyles, newStyle]
    by_cases hr : reject (buildStyle sm0) = true
    · rw [if_pos hr]
      have hrec := ih f smap hndt hbound
        (fun k' hk' => hdisj k' (by simp [hk'])) k
      by_cases hk : k0 = k
      · subst hk
        rw [hrec, alookup_not_mem t k0 hk0notin, hdisj k0 (by simp)]
        simp [alookup, hr]
      · have hcons : alookup ((k0, sm0) :: t) k = alookup t k := by
          simp [alookup, hk]
        rw [hrec, hcons]
    · rw [if_neg hr]
      have hbound' : ∀ k' i, alookup (mapInsert smap k0 f.styles.length) k' = some i →
          i < ({ f with styles := f.styles ++ [buildStyle sm0] } : WFile).styles.length := by
        intro k' i hki
        by_cases hkk : k0 = k'
        · subst hkk
          rw [alookup_mapInsert_self] at hki
          simp only [Option.some.injEq] at hki
          subst hki
          simp
        · rw [alookup_mapInsert_ne smap k0 k' _ hkk] at hki
          have := hbound k' i hki
          simp only [List.length_append, List.length_cons, List.length_nil]
          omega
      have hdisj' : ∀ k', k' ∈ t.map Prod.fst →
          alookup (mapInsert smap k0 f.styles.length) k' = none := by
        intro k' hk'
        have hkk : k0 ≠ k' := fun h => hk0notin (h ▸ hk')
        rw [alookup_mapInsert_ne smap k0 k' _ hkk]
        exact hdisj k' (by simp [hk'])
      have hrec := ih { f with styles := f.styles ++ [buildStyle sm0] }
        (mapInsert smap k0 f.styles.length) hndt hbound' hdisj' k
      by_cases hk : k0 = k
      · subst hk
        rw [hrec, alookup_not_mem t k0 hk0notin,
          alookup_mapInsert_self smap k0 f.styles.length]
        simp [alookup, hr, List.getElem?_concat_length]
      · have hcons : alookup ((k0, sm0) :: t) k = alookup t k := by
          simp [alookup, hk]
        rw [hrec, hcons]
        rcases hlt : alookup t k with _ | sm'
        · simp only []
          rw [alookup_mapInsert_ne smap k0 k _ hk]
          rcases hsk : alookup smap k with _ | i
          · rfl
          · have hib := hbound k i hsk
            simp only [Option.map_some', Option.some.injEq]
            rw [List.getElem?_append]
            simp [hib]
        · rfl

/-- Two workbook states of two runs are observably equal: the sheets agree
under each run's own style table, and the non-sheet fields agree, the style
tables being those produced by each run's style pass. -/
def filesRel (s1 s2 : List EngineStyle) (f1 f2 : WFile) : Prop :=
  f1.sheets.map (obsSheet s1) = f2.sheets.map (obsSheet s2) ∧
  f1.activeSheet = f2.activeSheet ∧ f1.docProps = f2.docProps ∧
  f1.definedNames = f2.definedNames ∧ f1.styles = s1 ∧ f2.styles = s2

theorem filesRel_obsFile {s1 s2 : List EngineStyle} {f1 f2 : WFile}
    (h : filesRel s1 s2 f1 f2) : obsFile f1 = obsFile f2 := by
  obtain ⟨hsheets, hact, hdoc, hdef, hs1, hs2⟩ := h
  simp only [obsFile, hs1, hs2, hsheets, hact, hdoc, hdef]

theorem obsSheet_name_eq {s1 s2 : List EngineStyle} {ws1 ws2 : WSheet}
    (h : obsSheet s1 ws1 = obsSheet s2 ws2) : ws1.name = ws2.name :=
  congrArg Prod.fst h

theorem filesRel_sheetNames {s1 s2 : List EngineStyle} {f1 f2 : WFile}
    (h : filesRel s1 s2 f1 f2) : sheetNames f1 = sheetNames f2 := by
  have hm := congrArg (List.map Prod.fst) h.1
  simpa only [sheetNames, List.map_map] using hm

/-- The obs-preserving transformer pairs lift through `updateSheetByName`. -/
theorem sheetsMap_update_congr (s1 s2 : List EngineStyle) (n : String)
    (t1 t2 : WSheet → WSheet)
    (ht : ∀ ws1 ws2, obsSheet s1 ws1 = obsSheet s2 ws2 →
      obsSheet s1 (t1 ws1) = obsSheet s2 (t2 ws2)) :
    ∀ (A B : List WSheet), A.map (obsSheet s1) = B.map (obsSheet s2) →
      (A.map (fun ws => if ws.name = n then t1 ws else ws)).map (obsSheet s1) =
        (B.map (fun ws => if ws.name = n then t2 ws else ws)).map (obsSheet s2) := by
  intro A
  induction A with
  | nil =>
    intro B h
    have hB : B = [] := List.map_eq_nil_iff.mp h.symm
    subst hB
    rfl
  | cons ws t ih =>
    intro B h
    rcases B with _ | ⟨ws2, t2'⟩
    · simp at h
    · simp only [List.map_cons, List.cons.injEq] at h
      obtain ⟨hhead, htail⟩ := h
      have hname := obsSheet_name_eq hhead
      simp only [List.map_cons, List.cons.injEq]
      refine ⟨?_, ih t2' htail⟩
      by_cases hn : ws.name = n
      · rw [if_pos hn, if_pos (hname ▸ hn), ht ws ws2 hhead]
      · rw [if_neg hn, if_neg (hname ▸ hn)]
        exact hhead

theorem filesRel_updateSheetByName {s1 s2 : List EngineStyle} {f1 f2 : WFile}
    (n : String) (t1 t2 : WSheet → WSheet)
    (ht : ∀ ws1 ws2, obsSheet s1 ws1 = obsSheet s2 ws2 →
      obsSheet s1 (t1 ws1) = obsSheet s2 (t2 ws2))
    (h : filesRel s1 s2 f1 f2) :
    filesRel s1 s2 (updateSheetByName f1 n t1) (updateSheetByName f2 n t2) :=
  ⟨sheetsMap_update_congr s1 s2 n t1 t2 ht f1.sheets f2.sheets h.1,
    h.2.1, h.2.2.1, h.2.2.2.1, h.2.2.2.2.1, h.2.2.2.2.2⟩

/-! ### Observable congruence of the per-cell operations -/

theorem cellsObs_mapUpdate_congr (s1 s2 : List EngineStyle) (a : String)
    (g1 g2 : CellState → CellState)
    (hg : ∀ cs1 cs2, obsCell s1 cs1 = obsCell s2 cs2 →
      obsCell s1 (g1 cs1) = obsCell s2 (g2 cs2)) :
    ∀ (cl1 cl2 : List (String × CellState)), cellsObs s1 cl1 = cellsObs s2 cl2 →
      cellsObs s1 (mapUpdate {} cl1 a g1) = cellsObs s2 (mapUpdate {} cl2 a g2) := by
  intro cl1
  induction cl1 with
  | nil =>
    intro cl2 h
    have h2 : cl2 = [] := List.map_eq_nil_iff.mp h.symm
    subst h2
    exact congrArg₂ List.cons (congrArg (Prod.mk a) (hg {} {} rfl)) rfl
  | cons p t ih =>
    intro cl2 h
    rcases cl2 with _ | ⟨q, t2⟩
    · exact absurd h (by simp [cellsObs])
    · obtain ⟨pk, pv⟩ := p
      obtain ⟨qk, qv⟩ := q
      injection h with hpair htail
      injection hpair with hkey hobs
      subst hkey
      by_cases hk : pk = a
      · subst hk
        rw [show mapUpdate ({} : CellState) ((pk, pv) :: t) pk g1 = (pk, g1 pv) :: t
            from by simp [mapUpdate],
          show mapUpdate ({} : CellState) ((pk, qv) :: t2) pk g2 = (pk, g2 qv) :: t2
            from by simp [mapUpdate]]
        exact congrArg₂ List.cons (congrArg (Prod.mk pk) (hg pv qv hobs)) htail
      · rw [show mapUpdate ({} : CellState) ((pk, pv) :: t) a g1 =
            (pk, pv) :: mapUpdate {} t a g1 from by simp [mapUpdate, hk],
          show mapUpdate ({} : CellState) ((pk, qv) :: t2) a g2 =
            (pk, qv) :: mapUpdate {} t2 a g2 from by simp [mapUpdate, hk]]
        exact congrArg₂ List.cons (congrArg (Prod.mk pk) hobs) (ih t2 htail)

theorem obsCell_set_formula (s1 s2 : List EngineStyle) (fml : String) :
    ∀ cs1 cs2, obsCell s1 cs1 = obsCell s2 cs2 →
      obsCell s1 { cs1 with formula := some fml } =
        obsCell s2 { cs2 with formula := some fml } := by
  intro cs1 cs2 h
  injection h with h1 hr
  injection hr with h2 hr2
  injection hr2 with h3 h4
  simp only [obsCell]
  rw [h1, h3, h4]

theorem obsCell_set_value (s1 s2 : List EngineStyle) (v : CellContent) :
    ∀ cs1 cs2, obsCell s1 cs1 = obsCell s2 cs2 →
      obsCell s1 { cs1 with value := some v } =
        obsCell s2 { cs2 with value := some v } := by
  intro cs1 cs2 h
  injection h with h1 hr
  injection hr with h2 hr2
  injection hr2 with h3 h4
  simp only [obsCell]
  rw [h2, h3, h4]

theorem obsCell_set_hyperlink (s1 s2 : List EngineStyle) (hl : String × String) :
    ∀ cs1 cs2, obsCell s1 cs1 = obsCell s2 cs2 →
      obsCell s1 { cs1 with hyperlink := some hl } =
        obsCell s2 { cs2 with hyperlink := some hl } := by
  intro cs1 cs2 h
  injection h with h1 hr
  injection hr with h2 hr2
  injection hr2 with h3 h4
  simp only [obsCell]
  rw [h1, h2, h3]

theorem obsCell_set_style (s1 s2 : List EngineStyle) (n1 n2 : Nat)
    (hres : s1[n1]? = s2[n2]?) :
    ∀ cs1 cs2, obsCell s1 cs1 = obsCell s2 cs2 →
      obsCell s1 { cs1 with styleID := some n1 } =
        obsCell s2 { cs2 with styleID := some n2 } := by
  intro cs1 cs2 h
  injection h with h1 hr
  injection hr with h2 hr2
  injection hr2 with h3 h4
  simp only [obsCell]
  rw [h1, h2, h4]
  have : (some n1).bind (fun i => s1[i]?) = (some n2).bind (fun i => s2[i]?) := by
    simpa using hres
  rw [this]

theorem filesRel_updateCellState {s1 s2 : List EngineStyle} {f1 f2 : WFile}
    (n addr : String) (g1 g2 : CellState → CellState)
    (hg : ∀ cs1 cs2, obsCell s1 cs1 = obsCell s2 cs2 →
      obsCell s1 (g1 cs1) = obsCell s2 (g2 cs2))
    (h : filesRel s1 s2 f1 f2) :
    filesRel s1 s2 (updateCellState f1 n addr g1) (updateCellState f2 n addr g2) := by
  refine filesRel_updateSheetByName n _ _ ?_ h
  intro ws1 ws2 hws
  simp only [obsSheet, Prod.mk.injEq] at hws ⊢
  exact ⟨hws.1, hws.2.1, hws.2.2.1, hws.2.2.2.1,
    cellsObs_mapUpdate_congr s1 s2 addr g1 g2 hg ws1.cells ws2.cells hws.2.2.2.2.1,
    hws.2.2.2.2.2⟩

theorem filesRel_setCellByValue {s1 s2 : List EngineStyle} {f1 f2 : WFile}
    (n addr : String) (v : CellValue) (h : filesRel s1 s2 f1 f2) :
    filesRel s1 s2 (setCellByValue f1 n addr v) (setCellByValue f2 n addr v) := by
  cases v with
  | vFloat32 q =>
    exact filesRel_updateCellState n addr _ _ (obsCell_set_value s1 s2 (.floatCell q)) h
  | vFloat64 q =>
    exact filesRel_updateCellState n addr _ _ (obsCell_set_value s1 s2 (.floatCell q)) h
  | vInt i =>
    exact filesRel_updateCellState n addr _ _ (obsCell_set_value s1 s2 (.intCell i)) h
  | vInt8 i =>
    exact filesRel_updateCellState n addr _ _ (obsCell_set_value s1 s2 (.intCell i)) h
  | vInt16 i =>
    exact filesRel_updateCellState n addr _ _ (obsCell_set_value s1 s2 (.intCell i)) h
  | vInt32 i =>
    exact filesRel_updateCellState n addr _ _ (obsCell_set_value s1 s2 (.intCell i)) h
  | vBool b =>
    exact filesRel_updateCellState n addr _ _ (obsCell_set_value s1 s2 (.boolCell b)) h
  | vTime t =>
    exact filesRel_updateCellState n addr _ _ (obsCell_set_value s1 s2 (.timeCell t)) h
  | vOther str =>
    simp only [setCellByValue]
    rcases hp : parseGoFloat str with _ | q
    · exact filesRel_updateCellState n addr _ _ (obsCell_set_value s1 s2 (.strCell str)) h
    · exact filesRel_updateCellState n addr _ _ (obsCell_set_value s1 s2 (.floatCell q)) h

/-- The per-cell loop body preserves observable equality of two runs whose
remap tables resolve every style identifier to the same descriptor. -/
theorem filesRel_applyCell {s1 s2 : List EngineStyle} {smap1 smap2 : List (Int × Nat)}
    (Hres : ∀ k, (alookup smap1 k).map (fun i => s1[i]?) =
      (alookup smap2 k).map (fun i => s2[i]?))
    (o : Options) (n : String) (c : CellMetadata) {f1 f2 : WFile}
    (h : filesRel s1 s2 f1 f2) :
    filesRel s1 s2 (applyCell o smap1 n f1 c) (applyCell o smap2 n f2 c) := by
  unfold applyCell
  by_cases hskip : o.skipEmptyCells = true ∧ c.value = none ∧ c.formula = ""
  · rw [if_pos hskip, if_pos hskip]
    exact h
  · rw [if_neg hskip, if_neg hskip]
    have h2 : ∀ g1 g2, filesRel s1 s2 g1 g2 →
        filesRel s1 s2
          (if o.preserveStyles = true ∧ c.styleID ≠ 0 then
            match alookup smap1 c.styleID with
            | some newStyleID => setCellStyle g1 n c.address c.address newStyleID
            | none => g1
          else g1)
          (if o.preserveStyles = true ∧ c.styleID ≠ 0 then
            match alookup smap2 c.styleID with
            | some newStyleID => setCellStyle g2 n c.address c.address newStyleID
            | none => g2
          else g2) := by
      intro g1 g2 hg
      by_cases hsc : o.preserveStyles = true ∧ c.styleID ≠ 0
      · rw [if_pos hsc, if_pos hsc]
        have hres := Hres c.styleID
        rcases hl1 : alookup smap1 c.styleID with _ | n1 <;>
          rcases hl2 : alookup smap2 c.styleID with _ | n2
        · exact hg
        · rw [hl1, hl2] at hres
          simp at hres
        · rw [hl1, hl2] at hres
          simp at hres
        · rw [hl1, hl2] at hres
          simp only [Option.map_some', Option.some.injEq] at hres
          exact filesRel_updateCellState n c.address _ _
            (obsCell_set_style s1 s2 n1 n2 hres) hg
      · rw [if_neg hsc, if_neg hsc]
        exact hg
    have h3 : ∀ g1 g2, filesRel s1 s2 g1 g2 →
        filesRel s1 s2
          (match c.hyperlink with
          | some hl => setCellHyperLink g1 n c.address hl.link "Location"
          | none => g1)
          (match c.hyperlink with
          | some hl => setCellHyperLink g2 n c.address hl.link "Location"
          | none => g2) := by
      intro g1 g2 hg
      rcases c.hyperlink with _ | hl
      · exact hg
      · exact filesRel_updateCellState n c.address _ _
          (obsCell_set_hyperlink s1 s2 (hl.link, "Location")) hg
    refine h3 _ _ (h2 _ _ ?_)
    by_cases hfc : c.formula ≠ "" ∧ o.preserveFormulas = true
    · rw [if_pos hfc, if_pos hfc]
      exact filesRel_updateCellState n c.address _ _ (obsCell_set_formula s1 s2 c.formula) h
    · rw [if_neg hfc, if_neg hfc]
      rcases c.value with _ | v
      · exact h
      · exact filesRel_setCellByValue n c.address v h

/-- Component decomposition of observable sheet equality. -/
theorem obsSheet_parts {s1 s2 : List EngineStyle} {ws1 ws2 : WSheet}
    (h : obsSheet s1 ws1 = obsSheet s2 ws2) :
    ws1.name = ws2.name ∧ ws1.visible = ws2.visible ∧ ws1.colWidths = ws2.colWidths ∧
    ws1.rowHeights = ws2.rowHeights ∧ cellsObs s1 ws1.cells = cellsObs s2 ws2.cells ∧
    ws1.merges = ws2.merges ∧ ws1.validations = ws2.validations ∧
    ws1.protection = ws2.protection := by
  injection h with h1 r1
  injection r1 with h2 r2
  injection r2 with h3 r3
  injection r3 with h4 r4
  injection r4 with h5 r5
  injection r5 with h6 r6
  injection r6 with h7 h8
  exact ⟨h1, h2, h3, h4, h5, h6, h7, h8⟩

theorem obsSheet_set_visible (s1 s2 : List EngineStyle) (b : Bool) :
    ∀ ws1 ws2, obsSheet s1 ws1 = obsSheet s2 ws2 →
      obsSheet s1 { ws1 with visible := b } = obsSheet s2 { ws2 with visible := b } := by
  intro ws1 ws2 h
  obtain ⟨h1, h2, h3, h4, h5, h6, h7, h8⟩ := obsSheet_parts h
  simp only [obsSheet]
  rw [h1, h3, h4, h5, h6, h7, h8]

theorem obsSheet_set_colWidth (s1 s2 : List EngineStyle) (col : String) (w : ℚ) :
    ∀ ws1 ws2, obsSheet s1 ws1 = obsSheet s2 ws2 →
      obsSheet s1 { ws1 with colWidths := mapInsert ws1.colWidths col w } =
        obsSheet s2 { ws2 with colWidths := mapInsert ws2.colWidths col w } := by
  intro ws1 ws2 h
  obtain ⟨h1, h2, h3, h4, h5, h6, h7, h8⟩ := obsSheet_parts h
  simp only [obsSheet]
  rw [h1, h2, h3, h4, h5, h6, h7, h8]

theorem obsSheet_set_rowHeight (s1 s2 : List EngineStyle) (row : Int) (ht : ℚ) :
    ∀ ws1 ws2, obsSheet s1 ws1 = obsSheet s2 ws2 →
      obsSheet s1 { ws1 with rowHeights := mapInsert ws1.rowHeights row ht } =
        obsSheet s2 { ws2 with rowHeights := mapInsert ws2.rowHeights row ht } := by
  intro ws1 ws2 h
  obtain ⟨h1, h2, h3, h4, h5, h6, h7, h8⟩ := obsSheet_parts h
  simp only [obsSheet]
  rw [h1, h2, h3, h4, h5, h6, h7, h8]

theorem obsSheet_add_merge (s1 s2 : List EngineStyle) (mg : String × String) :
    ∀ ws1 ws2, obsSheet s1 ws1 = obsSheet s2 ws2 →
      obsSheet s1 { ws1 with merges := ws1.merges ++ [mg] } =
        obsSheet s2 { ws2 with merges := ws2.merges ++ [mg] } := by
  intro ws1 ws2 h
  obtain ⟨h1, h2, h3, h4, h5, h6, h7, h8⟩ := obsSheet_parts h
  simp only [obsSheet]
  rw [h1, h2, h3, h4, h5, h6, h7, h8]

theorem obsSheet_add_validation (s1 s2 : List EngineStyle) (dv : EngineValidation) :
    ∀ ws1 ws2, obsSheet s1 ws1 = obsSheet s2 ws2 →
      obsSheet s1 { ws1 with validations := ws1.validations ++ [dv] } =
        obsSheet s2 { ws2 with validations := ws2.validations ++ [dv] } := by
  intro ws1 ws2 h
  obtain ⟨h1, h2, h3, h4, h5, h6, h7, h8⟩ := obsSheet_parts h
  simp only [obsSheet]
  rw [h1, h2, h3, h4, h5, h6, h7, h8]

theorem obsSheet_set_protection (s1 s2 : List EngineStyle) (p : ProtectionOpts) :
    ∀ ws1 ws2, obsSheet s1 ws1 = obsSheet s2 ws2 →
      obsSheet s1 { ws1 with protection := some p } =
        obsSheet s2 { ws2 with protection := some p } := by
  intro ws1 ws2 h
  obtain ⟨h1, h2, h3, h4, h5, h6, h7, h8⟩ := obsSheet_parts h
  simp only [obsSheet]
  rw [h1, h2, h3, h4, h5, h6, h7]

/-- A pair of folds over the same list preserves a binary relation that
every step pair preserves. -/
theorem foldl_rel {α β : Type} (R : β → β → Prop) (st1 st2 : β → α → β)
    (h : ∀ b1 b2 a, R b1 b2 → R (st1 b1 a) (st2 b2 a)) :
    ∀ (l : List α) (b1 b2 : β), R b1 b2 → R (l.foldl st1 b1) (l.foldl st2 b2) := by
  intro l
  induction l with
  | nil => intro b1 b2 hb; exact hb
  | cons a t ih =>
    intro b1 b2 hb
    rw [List.foldl_cons, List.foldl_cons]
    exact ih _ _ (h b1 b2 a hb)

/-- The whole post-creation sheet pipeline preserves observable equality
of two runs. -/
theorem filesRel_sheetBody {s1 s2 : List EngineStyle} {smap1 smap2 : List (Int × Nat)}
    (Hres : ∀ k, (alookup smap1 k).map (fun i => s1[i]?) =
      (alookup smap2 k).map (fun i => s2[i]?))
    (o : Options) (nm : String) (sm : SheetMetadata) {f1 f2 : WFile}
    (h : filesRel s1 s2 f1 f2) :
    filesRel s1 s2 (sheetBody o smap1 nm sm f1) (sheetBody o smap2 nm sm f2) := by
  simp only [sheetBody]
  have hvis : ∀ (g1 g2 : WFile), filesRel s1 s2 g1 g2 →
      filesRel s1 s2 (setSheetVisible g1 nm sm.visible) (setSheetVisible g2 nm sm.visible) :=
    fun g1 g2 hg =>
      filesRel_updateSheetByName nm _ _ (obsSheet_set_visible s1 s2 sm.visible) hg
  have hcw : ∀ (g1 g2 : WFile), filesRel s1 s2 g1 g2 →
      filesRel s1 s2 (sm.colWidths.foldl (fun fa cw => setColWidth fa nm cw.1 cw.1 cw.2) g1)
        (sm.colWidths.foldl (fun fa cw => setColWidth fa nm cw.1 cw.1 cw.2) g2) :=
    fun g1 g2 hg => foldl_rel (filesRel s1 s2) _ _
      (fun b1 b2 cw hb =>
        filesRel_updateSheetByName nm _ _ (obsSheet_set_colWidth s1 s2 cw.1 cw.2) hb)
      sm.colWidths g1 g2 hg
  have hrh : ∀ (g1 g2 : WFile), filesRel s1 s2 g1 g2 →
      filesRel s1 s2 (sm.rowHeights.foldl (fun fa rh => setRowHeight fa nm rh.1 rh.2) g1)
        (sm.rowHeights.foldl (fun fa rh => setRowHeight fa nm rh.1 rh.2) g2) :=
    fun g1 g2 hg => foldl_rel (filesRel s1 s2) _ _
      (fun b1 b2 rh hb =>
        filesRel_updateSheetByName nm _ _ (obsSheet_set_rowHeight s1 s2 rh.1 rh.2) hb)
      sm.rowHeights g1 g2 hg
  have hcells : ∀ (g1 g2 : WFile), filesRel s1 s2 g1 g2 →
      filesRel s1 s2 (recreateCells o smap1 nm g1 sm.cells)
        (recreateCells o smap2 nm g2 sm.cells) :=
    fun g1 g2 hg => foldl_rel (filesRel s1 s2) _ _
      (fun b1 b2 c hb => filesRel_applyCell Hres o nm c hb) sm.cells g1 g2 hg
  have hmg : ∀ (g1 g2 : WFile), filesRel s1 s2 g1 g2 →
      filesRel s1 s2
        (sm.mergedCells.foldl (fun fa mg => mergeCell fa nm mg.startCell mg.endCell) g1)
        (sm.mergedCells.foldl (fun fa mg => mergeCell fa nm mg.startCell mg.endCell) g2) :=
    fun g1 g2 hg => foldl_rel (filesRel s1 s2) _ _
      (fun b1 b2 mg hb =>
        filesRel_updateSheetByName nm _ _
          (obsSheet_add_merge s1 s2 (mg.startCell, mg.endCell)) hb)
      sm.mergedCells g1 g2 hg
  have hdv : ∀ (g1 g2 : WFile), filesRel s1 s2 g1 g2 →
      filesRel s1 s2
        (if o.preserveDataValidation = true then
          sm.dataValidations.foldl (fun fa dv => recreateDataValidation fa nm dv) g1
        else g1)
        (if o.preserveDataValidation = true then
          sm.dataValidations.foldl (fun fa dv => recreateDataValidation fa nm dv) g2
        else g2) := by
    intro g1 g2 hg
    by_cases hp : o.preserveDataValidation = true
    · rw [if_pos hp, if_pos hp]
      exact foldl_rel (filesRel s1 s2) _ _
        (fun b1 b2 dv hb =>
          filesRel_updateSheetByName nm _ _
            (obsSheet_add_validation s1 s2
              { type := dv.type, operator := dv.operator, formula1 := dv.formula1,
                formula2 := dv.formula2, showErrorMessage := dv.showError,
                errorTitle := dv.errorTitle, error := dv.errorMessage,
                sqref := dv.range }) hb)
        sm.dataValidations g1 g2 hg
    · rw [if_neg hp, if_neg hp]
      exact hg
  have hpr : ∀ (g1 g2 : WFile), filesRel s1 s2 g1 g2 →
      filesRel s1 s2
        (match sm.protection with
        | some p => if p.protectedFlag = true then recreateSheetProtection g1 nm p else g1
        | none => g1)
        (match sm.protection with
        | some p => if p.protectedFlag = true then recreateSheetProtection g2 nm p else g2
        | none => g2) := by
    intro g1 g2 hg
    rcases sm.protection with _ | p
    · exact hg
    · show filesRel s1 s2
        (if p.protectedFlag = true then recreateSheetProtection g1 nm p else g1)
        (if p.protectedFlag = true then recreateSheetProtection g2 nm p else g2)
      by_cases hp : p.protectedFlag = true
      · rw [if_pos hp, if_pos hp]
        exact filesRel_updateSheetByName nm _ _
          (obsSheet_set_protection s1 s2
            { password := p.password, editObjects := p.editObjects,
              editScenarios := p.editScenarios, selectLockedCells := p.selectLockedCells,
              selectUnlockedCells := p.selectUnlockedCells }) hg
      · rw [if_neg hp, if_neg hp]
        exact hg
  exact hpr _ _ (hdv _ _ (hmg _ _ (hcells _ _ (hrh _ _ (hcw _ _ (hvis _ _ h))))))

theorem sheetExists_congr {s1 s2 : List EngineStyle} {f1 f2 : WFile}
    (h : filesRel s1 s2 f1 f2) (nm : String) :
    sheetExists f1 nm = sheetExists f2 nm := by
  have hn := filesRel_sheetNames h
  unfold sheetExists
  have e1 : ∀ (f : WFile), f.sheets.any (fun ws => ws.name = nm) =
      (sheetNames f).any (fun x => x = nm) := by
    intro f
    rw [sheetNames]
    induction f.sheets with
    | nil => rfl
    | cons ws t ih => simp only [List.map_cons, List.any_cons, ih]
  rw [e1 f1, e1 f2, hn]

/-- One sheet reconstruction step, run in both workbooks: either the same
fatal error, or success on both with observable equality preserved. -/
theorem recreateSheet_rel {s1 s2 : List EngineStyle} {smap1 smap2 : List (Int × Nat)}
    (Hres : ∀ k, (alookup smap1 k).map (fun i => s1[i]?) =
      (alookup smap2 k).map (fun i => s2[i]?))
    (o : Options) (sm : SheetMetadata) {f1 f2 : WFile} (h : filesRel s1 s2 f1 f2) :
    (∃ e, recreateSheet o smap1 f1 sm = .error e ∧ recreateSheet o smap2 f2 sm = .error e) ∨
    (∃ g1 g2, recreateSheet o smap1 f1 sm = .ok g1 ∧ recreateSheet o smap2 f2 sm = .ok g2 ∧
      filesRel s1 s2 g1 g2) := by
  have hex := sheetExists_congr h (resolvedSheetName o sm)
  simp only [recreateSheet, newSheet]
  by_cases he : sheetExists f1 (resolvedSheetName o sm) = true
  · rw [if_pos he, if_pos (hex ▸ he)]
    exact Or.inl ⟨_, rfl, rfl⟩
  · rw [if_neg he, if_neg (hex ▸ he)]
    refine Or.inr ⟨_, _, rfl, rfl, ?_⟩
    refine filesRel_sheetBody Hres o _ sm ?_
    refine ⟨?_, h.2.1, h.2.2.1, h.2.2.2.1, h.2.2.2.2.1, h.2.2.2.2.2⟩
    simp only [List.map_append, h.1]
    rfl

theorem recreateSheetsLoop_rel {s1 s2 : List EngineStyle} {smap1 smap2 : List (Int × Nat)}
    (Hres : ∀ k, (alookup smap1 k).map (fun i => s1[i]?) =
      (alookup smap2 k).map (fun i => s2[i]?)) (o : Options) :
    ∀ (l : List SheetMetadata) {f1 f2 : WFile}, filesRel s1 s2 f1 f2 →
      (∃ e, recreateSheetsLoop o smap1 f1 l = .error e ∧
        recreateSheetsLoop o smap2 f2 l = .error e) ∨
      (∃ g1 g2, recreateSheetsLoop o smap1 f1 l = .ok g1 ∧
        recreateSheetsLoop o smap2 f2 l = .ok g2 ∧ filesRel s1 s2 g1 g2) := by
  intro l
  induction l with
  | nil =>
    intro f1 f2 h
    exact Or.inr ⟨f1, f2, rfl, rfl, h⟩
  | cons sm t ih =>
    intro f1 f2 h
    rcases recreateSheet_rel Hres o sm h with ⟨e, he1, he2⟩ | ⟨g1, g2, hk1, hk2, hrel⟩
    · simp only [recreateSheetsLoop]
      rw [he1, he2]
      exact Or.inl ⟨e, rfl, rfl⟩
    · simp only [recreateSheetsLoop]
      rw [hk1, hk2]
      exact ih hrel

/-- Full field description of the defined-names pass. -/
theorem recreateDefinedNames_spec (m : Metadata) :
    ∀ (f : WFile), (recreateDefinedNames m f).sheets = f.sheets ∧
      (recreateDefinedNames m f).styles = f.styles ∧
      (recreateDefinedNames m f).activeSheet = f.activeSheet ∧
      (recreateDefinedNames m f).docProps = f.docProps ∧
      (recreateDefinedNames m f).definedNames = f.definedNames ++
        m.definedNames.map (fun dn =>
          ({ name := dn.name, refersTo := dn.refersTo, scope := dn.scope } :
            EngineDefinedName)) := by
  unfold recreateDefinedNames
  generalize m.definedNames = l
  induction l with
  | nil => intro f; simp
  | cons dn t ih =>
    intro f
    rw [List.foldl_cons]
    have hih := ih (setDefinedName f
      { name := dn.name, refersTo := dn.refersTo, scope := dn.scope })
    refine ⟨hih.1, hih.2.1, hih.2.2.1, hih.2.2.2.1, ?_⟩
    rw [hih.2.2.2.2]
    simp [setDefinedName]

theorem filesRel_recreateDefinedNames {s1 s2 : List EngineStyle} (m : Metadata)
    {g1 g2 : WFile} (h : filesRel s1 s2 g1 g2) :
    filesRel s1 s2 (recreateDefinedNames m g1) (recreateDefinedNames m g2) := by
  have h1 := recreateDefinedNames_spec m g1
  have h2 := recreateDefinedNames_spec m g2
  refine ⟨?_, ?_, ?_, ?_, ?_, ?_⟩
  · rw [h1.1, h2.1]
    exact h.1
  · rw [h1.2.2.1, h2.2.2.1]
    exact h.2.1
  · rw [h1.2.2.2.1, h2.2.2.2.1]
    exact h.2.2.1
  · rw [h1.2.2.2.2, h2.2.2.2.2, h.2.2.2.1]
  · rw [h1.2.1]
    exact h.2.2.2.2.1
  · rw [h2.2.1]
    exact h.2.2.2.2.2

theorem filesRel_setActiveSheet {s1 s2 : List EngineStyle} (i : Int)
    {g1 g2 : WFile} (h : filesRel s1 s2 g1 g2) :
    filesRel s1 s2 (setActiveSheet g1 i) (setActiveSheet g2 i) :=
  ⟨h.1, rfl, h.2.2.1, h.2.2.2.1, h.2.2.2.2.1, h.2.2.2.2.2⟩

/-- Sheets whose cell stores are empty look the same under any style
table. -/
theorem obs_map_eq_of_cells_nil (s1 s2 : List EngineStyle) :
    ∀ (A : List WSheet), (∀ ws ∈ A, ws.cells = []) →
      A.map (obsSheet s1) = A.map (obsSheet s2) := by
  intro A
  induction A with
  | nil => intro _; rfl
  | cons ws t ih =>
    intro hA
    have hw : ws.cells = [] := hA ws (List.mem_cons_self ws t)
    simp only [List.map_cons]
    rw [ih (fun ws' hws' => hA ws' (List.mem_cons_of_mem ws hws'))]
    have : obsSheet s1 ws = obsSheet s2 ws := by
      simp [obsSheet, cellsObs, hw]
    rw [this]

/-- C3: two-run determinism. Go iterates the `Styles` map of the metadata
in an arbitrary order; a second run over the same metadata is modelled by
running `recreate` on any permutation `l2` of the styles association list
(whose keys are distinct, as in a Go map). Both runs fail together or
succeed with observably identical workbooks: the same sheet names in the
same order, the same cell values, formulas and hyperlinks, the same
resolved style descriptor on every styled cell, and the same active sheet,
document properties and defined names (the collaborator's fresh numeric
style identifiers may differ between the runs, but every cell resolves to
the same registered style). -/
theorem recreate_two_run_determinism (reject : EngineStyle → Bool) (m : Metadata)
    (o : Options) (l2 : List (Int × StyleMeta))
    (hnd : (m.styles.map Prod.fst).Nodup) (hperm : l2.Perm m.styles) :
    (recreate reject m o).map obsFile =
      (recreate reject { m with styles := l2 } o).map obsFile := by
  have hlen : l2.length = m.styles.length := hperm.length_eq
  simp only [recreate]
  rw [show recreateDocumentProperties { m with styles := l2 } newFile =
      recreateDocumentProperties m newFile from rfl,
    show recreateDefinedNames { m with styles := l2 } = recreateDefinedNames m from rfl]
  by_cases hC : o.preserveStyles = true ∧ m.styles.length > 0
  · have hC2 : o.preserveStyles = true ∧ l2.length > 0 := ⟨hC.1, by rw [hlen]; exact hC.2⟩
    rw [if_pos hC, if_pos hC2]
    have hnd2 : (l2.map Prod.fst).Nodup := ((hperm.map Prod.fst).nodup_iff).mpr hnd
    have hres1 := recreateStyles_resolveM reject m.styles
      (recreateDocumentProperties m newFile) [] hnd
      (fun k i h => by simp [alookup] at h) (fun k _ => rfl)
    have hres2 := recreateStyles_resolveM reject l2
      (recreateDocumentProperties m newFile) [] hnd2
      (fun k i h => by simp [alookup] at h) (fun k _ => rfl)
    have halook : ∀ k, alookup l2 k = alookup m.styles k :=
      fun k => alookup_perm l2 m.styles hperm hnd2 k
    have Hres : ∀ k, (alookup (recreateStyles reject m.styles
          (recreateDocumentProperties m newFile) []).2 k).map
          (fun i => (recreateStyles reject m.styles
            (recreateDocumentProperties m newFile) []).1.styles[i]?) =
        (alookup (recreateStyles reject l2
          (recreateDocumentProperties m newFile) []).2 k).map
          (fun i => (recreateStyles reject l2
            (recreateDocumentProperties m newFile) []).1.styles[i]?) := by
      intro k
      rw [hres1 k, hres2 k, halook k]
    have hsheets1 : (recreateStyles reject m.styles
        (recreateDocumentProperties m newFile) []).1.sheets = newFile.sheets :=
      recreateStyles_sheets reject m.styles (recreateDocumentProperties m newFile) []
    have hsheets2 : (recreateStyles reject l2
        (recreateDocumentProperties m newFile) []).1.sheets = newFile.sheets :=
      recreateStyles_sheets reject l2 (recreateDocumentProperties m newFile) []
    have hfr1 := recreateStyles_frame reject m.styles (recreateDocumentProperties m newFile) []
    have hfr2 := recreateStyles_frame reject l2 (recreateDocumentProperties m newFile) []
    have hcellsnil : ∀ ws ∈ newFile.sheets, ws.cells = [] := by
      intro ws hws
      simp only [newFile, List.mem_singleton] at hws
      rw [hws]
    have hrel0 : filesRel
        (recreateStyles reject m.styles (recreateDocumentProperties m newFile) []).1.styles
        (recreateStyles reject l2 (recreateDocumentProperties m newFile) []).1.styles
        (if m.sheets.length > 0 then
          deleteSheet (recreateStyles reject m.styles
            (recreateDocumentProperties m newFile) []).1 "Sheet1"
        else (recreateStyles reject m.styles (recreateDocumentProperties m newFile) []).1)
        (if m.sheets.length > 0 then
          deleteSheet (recreateStyles reject l2
            (recreateDocumentProperties m newFile) []).1 "Sheet1"
        else (recreateStyles reject l2 (recreateDocumentProperties m newFile) []).1) := by
      by_cases hms : m.sheets.length > 0
      · rw [if_pos hms, if_pos hms]
        refine ⟨?_, hfr1.2.1.trans hfr2.2.1.symm, hfr1.2.2.1.trans hfr2.2.2.1.symm,
          hfr1.2.2.2.trans hfr2.2.2.2.symm, rfl, rfl⟩
        show ((recreateStyles reject m.styles (recreateDocumentProperties m newFile)
            []).1.sheets.filter _).map _ = _
        rw [hsheets1]
        show _ = ((recreateStyles reject l2 (recreateDocumentProperties m newFile)
            []).1.sheets.filter _).map _
        rw [hsheets2]
        exact obs_map_eq_of_cells_nil _ _ _
          (fun ws hws => hcellsnil ws (List.mem_of_mem_filter hws))
      · rw [if_neg hms, if_neg hms]
        refine ⟨?_, hfr1.2.1.trans hfr2.2.1.symm, hfr1.2.2.1.trans hfr2.2.2.1.symm,
          hfr1.2.2.2.trans hfr2.2.2.2.symm, rfl, rfl⟩
        rw [hsheets1, hsheets2]
        exact obs_map_eq_of_cells_nil _ _ newFile.sheets hcellsnil
    rcases recreateSheetsLoop_rel Hres o m.sheets hrel0 with
      ⟨e, he1, he2⟩ | ⟨g1, g2, hk1, hk2, hrel⟩
    · rw [he1, he2]
    · rw [hk1, hk2]
      simp only [Except.map]
      congr 1
      have hrel5 : filesRel
          (recreateStyles reject m.styles (recreateDocumentProperties m newFile) []).1.styles
          (recreateStyles reject l2 (recreateDocumentProperties m newFile) []).1.styles
          (if o.preserveFormulas = true ∧ m.definedNames.length > 0 then
            recreateDefinedNames m g1 else g1)
          (if o.preserveFormulas = true ∧ m.definedNames.length > 0 then
            recreateDefinedNames m g2 else g2) := by
        by_cases hdf : o.preserveFormulas = true ∧ m.definedNames.length > 0
        · rw [if_pos hdf, if_pos hdf]
          exact filesRel_recreateDefinedNames m hrel
        · rw [if_neg hdf, if_neg hdf]
          exact hrel
      rcases hfind : List.find? (fun s => decide (s.visible = true)) m.sheets with _ | sh
      · rw [hfind]
        exact filesRel_obsFile hrel5
      · rw [hfind]
        exact filesRel_obsFile (filesRel_setActiveSheet sh.index hrel5)
  · have hC2 : ¬(o.preserveStyles = true ∧ l2.length > 0) :=
      fun hh => hC ⟨hh.1, by rw [← hlen]; exact hh.2⟩
    rw [if_neg hC, if_neg hC2]

/-- Witness for C3: a two-style document rerun with its styles map iterated
in the opposite order produces an observably identical workbook. -/
theorem recreate_two_run_determinism_witness :
    (mC3.styles.map Prod.fst).Nodup ∧ l2C3.Perm mC3.styles ∧
    (recreate rejectNone mC3 DefaultOptions).map obsFile =
      (recreate rejectNone { mC3 with styles := l2C3 } DefaultOptions).map obsFile :=
  ⟨by decide, by decide,
    recreate_two_run_determinism rejectNone mC3 DefaultOptions l2C3 (by decide) (by decide)⟩

end ExcelRecreator
